import Mathlib

/-!
# Verification of the eispac core fitting engine specification

The repository source under version control here exposes `eispac.core` as a
package that star-imports fourteen submodules (`src/eispac/core/__init__.py`).
The fitting engine itself (Template, InitialGuessEstimator, LMSolver,
FitOrchestrator, FitResult) is described by the specification but its code is
not present in the source tree, so those components are modelled from the
spec below; each such definition carries a doc comment starting with
`Modelled from the spec:`.  The wildcard-import semantics of the package
`__init__` file is embedded directly from the source.

Real numbers of the engine are modelled by `ℚ` so that every definition is
executable; IEEE `NaN` sentinels are modelled by `Option ℚ` with `none`
standing for `NaN`.
-/

set_option autoImplicit false
set_option maxHeartbeats 1000000

set_option allowUnsafeReducibility true
attribute [local semireducible] Rat.add Rat.mul Rat.sub Rat.inv

namespace EisFit

/-- Clamp a rational into the closed interval `[lo, hi]`. -/
def clamp (lo hi x : ℚ) : ℚ := max lo (min hi x)

/-- Modelled from the spec: a Spectrum is an ordered sequence of
(wavelength, intensity, intensity-uncertainty) samples for one pixel. -/
structure Spectrum where
  wavelength : List ℚ
  intensity : List ℚ
  uncertainty : List ℚ

/-- Modelled from the spec: a tie relation forces a parameter to a
linear/identity function of another parameter (by flattened index). -/
structure Tie where
  target : ℕ
  scale : ℚ
  offset : ℚ
deriving DecidableEq

/-- Modelled from the spec: which estimation policy the InitialGuessEstimator
applies to a parameter (amplitude / centroid / width / background). -/
inductive GuessKind
  | amplitude
  | centroid
  | width
  | background
deriving DecidableEq

/-- Modelled from the spec: per-parameter attributes of a template's
flattened parameter vector: initial (default/fixed) value, bounds, fixed
flag, optional tie, and the estimator policy data (kind and the owning
component's expected wavelength window). -/
structure ParamInfo where
  initial : ℚ
  lowerBound : ℚ
  upperBound : ℚ
  fixed : Bool
  tie : Option Tie
  kind : GuessKind
  window : Option (ℚ × ℚ)

instance : Inhabited ParamInfo :=
  ⟨⟨0, 0, 0, false, none, GuessKind.background, none⟩⟩

/-- Modelled from the spec: a Component is a profile kind defining a pure
function `value(wavelength, params) -> intensity`; it consumes `nparams`
entries of the flattened parameter vector. -/
structure Component where
  nparams : ℕ
  value : ℚ → List ℚ → ℚ

/-- Modelled from the spec: a Template is an ordered sequence of Components
plus the flattened per-parameter attribute vector of length `P`. -/
structure Template where
  components : List Component
  params : List ParamInfo

/-! ## List access helpers -/

theorem getD_range_map {α : Type} (f : ℕ → α) (n i : ℕ) (d : α) (h : i < n) :
    ((List.range n).map f).getD i d = f i := by
  simp [List.getD_eq_getElem?_getD, List.getElem?_map, List.getElem?_range h]

theorem getD_map_of_lt {α β : Type} (f : α → β) (l : List α) (i : ℕ) (d : α) (h : i < l.length) :
    (l.map f).getD i (f d) = f (l.getD i d) := by
  simp [List.getD_eq_getElem?_getD, List.getElem?_map, List.getElem?_eq_getElem h]

theorem length_range_map {α : Type} (f : ℕ → α) (n : ℕ) :
    ((List.range n).map f).length = n := by
  simp

/-! ## Parameter expansion and the residual builder -/

/-- Modelled from the spec: first pass of parameter expansion, replacing each
fixed parameter with its fixed value (its template initial value). -/
def fixedBase (ps : List ParamInfo) (v : List ℚ) : List ℚ :=
  (List.range ps.length).map (fun i =>
    let p := ps.getD i default
    if p.fixed then p.initial else v.getD i 0)

/-- Modelled from the spec: expanded parameters: fixed parameters resolved to
their fixed value, tied parameters replaced by the tie relation applied to
their target's current (post-fixed-resolution) value. -/
def expandParams (t : Template) (v : List ℚ) : List ℚ :=
  (List.range t.params.length).map (fun i =>
    let p := t.params.getD i default
    if p.fixed then (fixedBase t.params v).getD i 0
    else
      match p.tie with
      | some tie => tie.scale * (fixedBase t.params v).getD tie.target 0 + tie.offset
      | none => (fixedBase t.params v).getD i 0)

/-- Modelled from the spec: the composite model sums each component's value,
each component consuming its own slice of the expanded parameter vector in
declaration order. -/
def componentSum : List Component → ℚ → List ℚ → ℚ
  | [], _, _ => 0
  | c :: rest, w, ps => c.value w (ps.take c.nparams) + componentSum rest w (ps.drop c.nparams)

/-- Modelled from the spec: the template's model function
`model(wavelength, expandedParams)`. -/
def Template.model (t : Template) (w : ℚ) (ps : List ℚ) : ℚ :=
  componentSum t.components w ps

/-- Modelled from the spec: `buildResidual(spectrum, paramVector)` with
`residual[i] = (observed[i] - model(wavelength[i], expandedParams)) / uncertainty[i]`. -/
def Template.buildResidual (t : Template) (s : Spectrum) (v : List ℚ) : List ℚ :=
  (List.range s.wavelength.length).map (fun i =>
    (s.intensity.getD i 0 - t.model (s.wavelength.getD i 0) (expandParams t v))
      / s.uncertainty.getD i 0)

/-- Modelled from the spec: noise-free synthetic data: the observed intensity
at each wavelength is exactly the model evaluated at the true parameters. -/
def syntheticSpectrum (t : Template) (wl unc : List ℚ) (trueParams : List ℚ) : Spectrum :=
  ⟨wl, wl.map (fun w => t.model w (expandParams t trueParams)), unc⟩

theorem buildResidual_getD (t : Template) (s : Spectrum) (v : List ℚ) (i : ℕ)
    (h : i < s.wavelength.length) :
    (t.buildResidual s v).getD i 0 =
      (s.intensity.getD i 0 - t.model (s.wavelength.getD i 0) (expandParams t v))
        / s.uncertainty.getD i 0 := by
  unfold Template.buildResidual
  exact getD_range_map _ _ _ _ h

theorem buildResidual_synthetic_zero (t : Template) (wl unc tp : List ℚ) :
    t.buildResidual (syntheticSpectrum t wl unc tp) tp = List.replicate wl.length 0 := by
  unfold Template.buildResidual syntheticSpectrum
  simp only
  rw [List.eq_replicate_iff]
  constructor
  · simp
  · intro b hb
    rw [List.mem_map] at hb
    obtain ⟨i, hi, hb⟩ := hb
    rw [List.mem_range] at hi
    have hm : ((wl.map (fun w => t.model w (expandParams t tp))).getD i 0) =
        t.model (wl.getD i 0) (expandParams t tp) := by
      simp [List.getD_eq_getElem?_getD, List.getElem?_map, List.getElem?_eq_getElem hi]
    rw [← hb, hm]
    simp

/-! ## Template construction and validation -/

/-- Modelled from the spec: error taxonomy of the fitting engine that aborts
a run (per-pixel numerical outcomes are statuses, not errors). -/
inductive FitError
  | invalidTemplate
  | dimensionMismatch
deriving DecidableEq

/-- Modelled from the spec: every tie target index must be in range of the
flattened parameter vector. -/
def tieTargetsInRange (ps : List ParamInfo) : Bool :=
  (List.range ps.length).all (fun i =>
    match (ps.getD i default).tie with
    | some tie => decide (tie.target < ps.length)
    | none => true)

/-- Modelled from the spec: bounded traversal of the tie reference graph:
`tieResolves ps fuel i` is `true` when following tie targets from `i` reaches
a non-tied parameter within `fuel` steps, staying in range. -/
def tieResolves (ps : List ParamInfo) : ℕ → ℕ → Bool
  | 0, _ => false
  | fuel + 1, i =>
    match (ps.getD i default).tie with
    | none => true
    | some tie => decide (tie.target < ps.length) && tieResolves ps fuel tie.target

/-- Modelled from the spec: the tie graph is acyclic (visited-set traversal,
realised by a fuel bound one larger than the number of parameters). -/
def tiesAcyclic (ps : List ParamInfo) : Bool :=
  (List.range ps.length).all (fun i => tieResolves ps (ps.length + 1) i)

/-- Modelled from the spec: every parameter has `lowerBound ≤ upperBound`. -/
def boundsConsistent (ps : List ParamInfo) : Bool :=
  (List.range ps.length).all (fun i =>
    decide ((ps.getD i default).lowerBound ≤ (ps.getD i default).upperBound))

/-- Modelled from the spec: all structural checks done at construction. -/
def templateValid (ps : List ParamInfo) : Bool :=
  tieTargetsInRange ps && tiesAcyclic ps && boundsConsistent ps

/-- Modelled from the spec: template construction validates the tie graph
and the bounds, failing with `InvalidTemplate` before any fitting happens. -/
def mkTemplate (cs : List Component) (ps : List ParamInfo) : Except FitError Template :=
  if templateValid ps then Except.ok ⟨cs, ps⟩ else Except.error FitError.invalidTemplate

/-- One step of the tie reference graph: the tie target of `i`, if tied. -/
def chainNext (ps : List ParamInfo) (i : ℕ) : Option ℕ :=
  ((ps.getD i default).tie).map Tie.target

/-- `k`-fold iteration of the tie reference graph. -/
def chainIter (ps : List ParamInfo) : ℕ → ℕ → Option ℕ
  | 0, i => some i
  | k + 1, i =>
    match chainNext ps i with
    | none => none
    | some j => chainIter ps k j

/-- A cycle of the tie reference graph through index `j`. -/
def ChainCycle (ps : List ParamInfo) (j : ℕ) : Prop :=
  ∃ k, chainIter ps (k + 1) j = some j

theorem chainIter_zero (ps : List ParamInfo) (i : ℕ) : chainIter ps 0 i = some i := rfl

theorem chainIter_succ (ps : List ParamInfo) (k i : ℕ) :
    chainIter ps (k + 1) i =
      match chainNext ps i with
      | none => none
      | some j => chainIter ps k j := rfl

theorem chainIter_add (ps : List ParamInfo) (a b i : ℕ) :
    chainIter ps (a + b) i = (chainIter ps a i).bind (chainIter ps b) := by
  induction a generalizing i with
  | zero => simp [chainIter_zero]
  | succ a ih =>
    have hsum : a + 1 + b = (a + b) + 1 := by omega
    rw [hsum, chainIter_succ ps (a + b) i, chainIter_succ ps a i]
    cases hnext : chainNext ps i with
    | none => simp
    | some j => simp [ih j]

theorem chainCycle_step (ps : List ParamInfo) (i j : ℕ) (hc : ChainCycle ps i)
    (hj : chainNext ps i = some j) : ChainCycle ps j := by
  obtain ⟨k, hk⟩ := hc
  refine ⟨k, ?_⟩
  have h1 : chainIter ps 1 i = some j := by
    have h := chainIter_succ ps 0 i
    rw [hj] at h
    simpa using h
  have ha : chainIter ps (k + 1 + 1) i = some j := by
    rw [chainIter_add ps (k + 1) 1 i, hk]
    simpa using h1
  have hb : chainIter ps (1 + (k + 1)) i = chainIter ps (k + 1) j := by
    rw [chainIter_add ps 1 (k + 1) i, h1]
    rfl
  have hco : 1 + (k + 1) = k + 1 + 1 := by omega
  rw [hco, ha] at hb
  exact hb.symm

theorem chainCycle_tied (ps : List ParamInfo) (i : ℕ) (hc : ChainCycle ps i) :
    ∃ tie, (ps.getD i default).tie = some tie := by
  obtain ⟨k, hk⟩ := hc
  unfold chainIter at hk
  cases hnext : chainNext ps i with
  | none => rw [hnext] at hk; simp at hk
  | some j =>
    unfold chainNext at hnext
    cases htie : (ps.getD i default).tie with
    | none => rw [htie] at hnext; simp at hnext
    | some tie => exact ⟨tie, rfl⟩

theorem chainCycle_not_resolves (ps : List ParamInfo) :
    ∀ fuel i, ChainCycle ps i → tieResolves ps fuel i = false := by
  intro fuel
  induction fuel with
  | zero => intro i _; rfl
  | succ fuel ih =>
    intro i hc
    obtain ⟨tie, htie⟩ := chainCycle_tied ps i hc
    have hnext : chainNext ps i = some tie.target := by
      unfold chainNext; rw [htie]; rfl
    have hcyc' : ChainCycle ps tie.target := chainCycle_step ps i tie.target hc hnext
    unfold tieResolves
    rw [htie]
    simp [ih tie.target hcyc']

theorem target_lt_of_inRange (ps : List ParamInfo) (hr : tieTargetsInRange ps = true)
    (i : ℕ) (hi : i < ps.length) (tie : Tie) (htie : (ps.getD i default).tie = some tie) :
    tie.target < ps.length := by
  unfold tieTargetsInRange at hr
  rw [List.all_eq_true] at hr
  have := hr i (List.mem_range.mpr hi)
  rw [htie] at this
  simpa using this

theorem resolves_false_chain (ps : List ParamInfo) (hr : tieTargetsInRange ps = true) :
    ∀ fuel i, i < ps.length → tieResolves ps fuel i = false →
      ∀ k, k ≤ fuel → ∃ j, j < ps.length ∧ chainIter ps k i = some j := by
  intro fuel
  induction fuel with
  | zero =>
    intro i hi _ k hk
    have : k = 0 := Nat.le_zero.mp hk
    subst this
    exact ⟨i, hi, rfl⟩
  | succ fuel ih =>
    intro i hi hfalse k hk
    cases htie : (ps.getD i default).tie with
    | none =>
      unfold tieResolves at hfalse
      rw [htie] at hfalse
      simp at hfalse
    | some tie =>
      have htar : tie.target < ps.length := target_lt_of_inRange ps hr i hi tie htie
      have hres : tieResolves ps fuel tie.target = false := by
        unfold tieResolves at hfalse
        rw [htie] at hfalse
        simpa [htar] using hfalse
      cases k with
      | zero => exact ⟨i, hi, rfl⟩
      | succ k =>
        have hnext : chainNext ps i = some tie.target := by
          unfold chainNext; rw [htie]; rfl
        have hstep : chainIter ps (k + 1) i = chainIter ps k tie.target := by
          rw [chainIter_succ ps k i, hnext]
        rw [hstep]
        exact ih tie.target htar hres k (Nat.le_of_succ_le_succ hk)

theorem cycle_of_repeat (ps : List ParamInfo) (i j k₁ k₂ : ℕ) (hlt : k₁ < k₂)
    (h₁ : chainIter ps k₁ i = some j) (h₂ : chainIter ps k₂ i = some j) :
    ChainCycle ps j := by
  have hsum : k₂ = k₁ + (k₂ - k₁) := by omega
  rw [hsum, chainIter_add, h₁] at h₂
  simp at h₂
  obtain ⟨d, hd⟩ : ∃ d, k₂ - k₁ = d + 1 := ⟨k₂ - k₁ - 1, by omega⟩
  exact ⟨d, by rw [← hd]; exact h₂⟩

theorem acyclic_false_cycle (ps : List ParamInfo) (hr : tieTargetsInRange ps = true)
    (ha : tiesAcyclic ps = false) : ∃ i, ChainCycle ps i := by
  unfold tiesAcyclic at ha
  rw [List.all_eq_false] at ha
  obtain ⟨i, hmem, hres⟩ := ha
  rw [List.mem_range] at hmem
  rw [Bool.not_eq_true] at hres
  have hchain := resolves_false_chain ps hr (ps.length + 1) i hmem hres
  have hmaps : ∀ k ∈ Finset.range (ps.length + 2),
      (fun k => (chainIter ps k i).getD 0) k ∈ Finset.range ps.length := by
    intro k hk
    rw [Finset.mem_range] at hk
    obtain ⟨j, hj, hiter⟩ := hchain k (by omega)
    show (chainIter ps k i).getD 0 ∈ Finset.range ps.length
    rw [Finset.mem_range, hiter]
    exact hj
  have hcard : (Finset.range ps.length).card < (Finset.range (ps.length + 2)).card := by
    simp
  obtain ⟨x, hx, y, hy, hxy, hfeq⟩ :=
    Finset.exists_ne_map_eq_of_card_lt_of_maps_to hcard hmaps
  rw [Finset.mem_range] at hx hy
  obtain ⟨jx, hjx, hix⟩ := hchain x (by omega)
  obtain ⟨jy, hjy, hiy⟩ := hchain y (by omega)
  have hjeq : jx = jy := by
    have : (chainIter ps x i).getD 0 = (chainIter ps y i).getD 0 := hfeq
    rw [hix, hiy] at this
    simpa using this
  rcases Nat.lt_or_ge x y with hlt | hge
  · exact ⟨jx, cycle_of_repeat ps i jx x y hlt hix (hjeq ▸ hiy)⟩
  · have hlt : y < x := by omega
    exact ⟨jy, cycle_of_repeat ps i jy y x hlt hiy (hjeq ▸ hix)⟩

theorem resolves_true_reaches (ps : List ParamInfo) :
    ∀ fuel i, tieResolves ps fuel i = true →
      ∃ k j, chainIter ps k i = some j ∧ (ps.getD j default).tie = none := by
  intro fuel
  induction fuel with
  | zero => intro i h; simp [tieResolves] at h
  | succ fuel ih =>
    intro i h
    cases htie : (ps.getD i default).tie with
    | none => exact ⟨0, i, rfl, htie⟩
    | some tie =>
      unfold tieResolves at h
      rw [htie] at h
      rw [Bool.and_eq_true] at h
      obtain ⟨k, j, hiter, hnone⟩ := ih tie.target h.2
      refine ⟨k + 1, j, ?_, hnone⟩
      unfold chainIter
      unfold chainNext
      rw [htie]
      exact hiter

theorem inRange_false_iff (ps : List ParamInfo) :
    tieTargetsInRange ps = false ↔
      ∃ i tie, i < ps.length ∧ (ps.getD i default).tie = some tie ∧ ps.length ≤ tie.target := by
  unfold tieTargetsInRange
  rw [List.all_eq_false]
  constructor
  · rintro ⟨i, hmem, hfail⟩
    rw [List.mem_range] at hmem
    cases htie : (ps.getD i default).tie with
    | none => rw [htie] at hfail; simp at hfail
    | some tie =>
      rw [htie] at hfail
      simp at hfail
      exact ⟨i, tie, hmem, htie, hfail⟩
  · rintro ⟨i, tie, hi, htie, htar⟩
    refine ⟨i, List.mem_range.mpr hi, ?_⟩
    rw [htie]
    simpa using htar

theorem bounds_false_iff (ps : List ParamInfo) :
    boundsConsistent ps = false ↔
      ∃ i, i < ps.length ∧
        (ps.getD i default).upperBound < (ps.getD i default).lowerBound := by
  unfold boundsConsistent
  rw [List.all_eq_false]
  constructor
  · rintro ⟨i, hmem, hfail⟩
    rw [List.mem_range] at hmem
    simp only [decide_eq_true_eq, not_le] at hfail
    exact ⟨i, hmem, hfail⟩
  · rintro ⟨i, hi, hlt⟩
    refine ⟨i, List.mem_range.mpr hi, ?_⟩
    simp only [decide_eq_true_eq, not_le]
    exact hlt

theorem cycle_acyclic_false (ps : List ParamInfo) (hc : ∃ i, ChainCycle ps i) :
    tiesAcyclic ps = false := by
  obtain ⟨i, hcyc⟩ := hc
  obtain ⟨tie, htie⟩ := chainCycle_tied ps i hcyc
  have hi : i < ps.length := by
    by_contra hge
    rw [List.getD_eq_default] at htie
    · simp [default] at htie
    · omega
  unfold tiesAcyclic
  rw [List.all_eq_false]
  refine ⟨i, List.mem_range.mpr hi, ?_⟩
  simp [chainCycle_not_resolves ps (ps.length + 1) i hcyc]

theorem templateValid_false_iff (ps : List ParamInfo) :
    templateValid ps = false ↔
      ((∃ i, ChainCycle ps i) ∨
       (∃ i tie, i < ps.length ∧ (ps.getD i default).tie = some tie ∧ ps.length ≤ tie.target) ∨
       (∃ i, i < ps.length ∧
         (ps.getD i default).upperBound < (ps.getD i default).lowerBound)) := by
  constructor
  · intro h
    unfold templateValid at h
    rcases Bool.and_eq_false_iff.mp h with h' | hc
    · rcases Bool.and_eq_false_iff.mp h' with ha | hb
      · exact Or.inr (Or.inl ((inRange_false_iff ps).mp ha))
      · cases hr : tieTargetsInRange ps with
        | true => exact Or.inl (acyclic_false_cycle ps hr hb)
        | false => exact Or.inr (Or.inl ((inRange_false_iff ps).mp hr))
    · exact Or.inr (Or.inr ((bounds_false_iff ps).mp hc))
  · intro h
    unfold templateValid
    rcases h with hcyc | hrange | hbound
    · rw [cycle_acyclic_false ps hcyc]
      simp
    · rw [(inRange_false_iff ps).mpr hrange]
      simp
    · rw [(bounds_false_iff ps).mpr hbound]
      simp

theorem mkTemplate_error_iff (cs : List Component) (ps : List ParamInfo) :
    mkTemplate cs ps = Except.error FitError.invalidTemplate ↔ templateValid ps = false := by
  unfold mkTemplate
  cases h : templateValid ps with
  | true => simp
  | false => simp

theorem mkTemplate_ok_params (cs : List Component) (ps : List ParamInfo) (t : Template)
    (h : mkTemplate cs ps = Except.ok t) : t.params = ps ∧ templateValid ps = true := by
  unfold mkTemplate at h
  cases hv : templateValid ps with
  | true =>
    rw [hv] at h
    simp at h
    exact ⟨by rw [← h], rfl⟩
  | false =>
    rw [hv] at h
    simp at h

/-- C6: template construction fails with `InvalidTemplate` exactly when the tie
graph has a cycle, a tie target index is out of range, or some parameter has
`lowerBound > upperBound`; a successfully constructed template satisfies the
invariant that every tied parameter's target resolves (through the tie chain)
to a non-tied parameter.  Failure happens at construction — before any pixel
is processed — since `mkTemplate` is the only fallible operation. -/
theorem mkTemplate_validation_spec (cs : List Component) (ps : List ParamInfo) :
    (mkTemplate cs ps = Except.error FitError.invalidTemplate ↔
      ((∃ i, ChainCycle ps i) ∨
       (∃ i tie, i < ps.length ∧ (ps.getD i default).tie = some tie ∧ ps.length ≤ tie.target) ∨
       (∃ i, i < ps.length ∧
         (ps.getD i default).upperBound < (ps.getD i default).lowerBound))) ∧
    (∀ t, mkTemplate cs ps = Except.ok t →
      ∀ i tie, (t.params.getD i default).tie = some tie →
        ∃ k j, chainIter t.params k tie.target = some j ∧
          (t.params.getD j default).tie = none) := by
  constructor
  · rw [mkTemplate_error_iff]
    exact templateValid_false_iff ps
  · intro t hok i tie htie
    obtain ⟨hparams, hvalid⟩ := mkTemplate_ok_params cs ps t hok
    subst hparams
    have hi : i < t.params.length := by
      by_contra hge
      rw [List.getD_eq_default] at htie
      · simp [default] at htie
      · omega
    unfold templateValid at hvalid
    rw [Bool.and_eq_true, Bool.and_eq_true] at hvalid
    have hacy := hvalid.1.2
    unfold tiesAcyclic at hacy
    rw [List.all_eq_true] at hacy
    have hres := hacy i (List.mem_range.mpr hi)
    unfold tieResolves at hres
    rw [htie] at hres
    rw [Bool.and_eq_true] at hres
    exact resolves_true_reaches t.params t.params.length tie.target hres.2

/-- Parameter tied to an out-of-range target, used by the C6 witness. -/
def badTieParam : ParamInfo :=
  { initial := 0, lowerBound := 0, upperBound := 1, fixed := false,
    tie := some ⟨5, 1, 0⟩, kind := GuessKind.amplitude, window := none }

/-- Witness for the C6 theorem: a template whose tie target index is out of
range is rejected with `InvalidTemplate` at construction time. -/
theorem mkTemplate_validation_spec_witness :
    mkTemplate [] [badTieParam] = Except.error FitError.invalidTemplate :=
  (mkTemplate_validation_spec [] [badTieParam]).1.mpr
    (Or.inr (Or.inl ⟨0, ⟨5, 1, 0⟩, by decide, by decide, by decide⟩))

/-! ## Initial guess estimation -/

/-- Modelled from the spec: the usable samples of a spectrum for estimating a
parameter: samples inside the owning component's expected wavelength window
(all samples when no window is set) whose uncertainty marks them as valid. -/
def usableSamples (s : Spectrum) (p : ParamInfo) : List (ℚ × ℚ) :=
  ((List.range s.wavelength.length).filter (fun i =>
    decide (0 < s.uncertainty.getD i 0) &&
      match p.window with
      | some w => decide (w.1 ≤ s.wavelength.getD i 0) && decide (s.wavelength.getD i 0 ≤ w.2)
      | none => true)).map (fun i => (s.wavelength.getD i 0, s.intensity.getD i 0))

/-- The (wavelength, intensity) sample of locally maximal intensity, earliest
first on ties; `none` on an empty sample list. -/
def bestSample : List (ℚ × ℚ) → Option (ℚ × ℚ)
  | [] => none
  | x :: rest =>
    some (match bestSample rest with
      | none => x
      | some y => if y.2 ≤ x.2 then x else y)

/-- Minimum intensity over a sample list (a crude background estimate). -/
def minIntensity : List (ℚ × ℚ) → ℚ
  | [] => 0
  | x :: rest => rest.foldl (fun a sample => min a sample.2) x.2

/-- Edge-sample statistic: mean of the first and last intensities. -/
def edgeAverage : List (ℚ × ℚ) → ℚ
  | [] => 0
  | x :: rest => (x.2 + ((x :: rest).getLastD x).2) / 2

/-- Modelled from the spec: raw (pre-clamp) estimate for one parameter:
amplitude from the window's local maximum minus a background estimate,
centroid from the wavelength at that maximum, width from the template
default, background from an edge-sample statistic; degrades to the
template's literal default when the window holds no usable samples. -/
def rawEstimate (s : Spectrum) (p : ParamInfo) : ℚ :=
  let u := usableSamples s p
  match bestSample u with
  | none => p.initial
  | some best =>
    match p.kind with
    | GuessKind.amplitude => best.2 - minIntensity u
    | GuessKind.centroid => best.1
    | GuessKind.width => p.initial
    | GuessKind.background => edgeAverage u

/-- Modelled from the spec: `estimate(spectrum, template) -> initialParamVector`:
fixed parameters take their fixed value directly, every other estimate is
clamped into `[lowerBound, upperBound]`. -/
def InitialGuessEstimator.estimate (s : Spectrum) (t : Template) : List ℚ :=
  (List.range t.params.length).map (fun i =>
    let p := t.params.getD i default
    if p.fixed then p.initial
    else clamp p.lowerBound p.upperBound (rawEstimate s p))

theorem clamp_mem (lo hi x : ℚ) (h : lo ≤ hi) :
    lo ≤ clamp lo hi x ∧ clamp lo hi x ≤ hi := by
  unfold clamp
  exact ⟨le_max_left lo _, max_le h (min_le_left hi x)⟩

theorem estimate_getD (s : Spectrum) (t : Template) (i : ℕ) (h : i < t.params.length) :
    (InitialGuessEstimator.estimate s t).getD i 0 =
      (if (t.params.getD i default).fixed then (t.params.getD i default).initial
       else clamp (t.params.getD i default).lowerBound (t.params.getD i default).upperBound
         (rawEstimate s (t.params.getD i default))) := by
  unfold InitialGuessEstimator.estimate
  exact getD_range_map _ _ _ _ h

/-! ## Claim theorems: residuals (C1) and initial guesses (C8) -/

/-- C1: `buildResidual` returns the vector whose entry `i` equals
`(observed[i] - model(wavelength[i], expandedParams)) / uncertainty[i]`, with
`expandedParams` resolving fixed and tied parameters before the component sum
(`expandParams`); consequently on noise-free synthetic data evaluated at the
true parameters every residual entry is zero. -/
theorem buildResidual_residual_spec (t : Template) (s : Spectrum) (v : List ℚ)
    (wl unc tp : List ℚ) :
    (∀ i, i < s.wavelength.length →
      (t.buildResidual s v).getD i 0 =
        (s.intensity.getD i 0 - t.model (s.wavelength.getD i 0) (expandParams t v))
          / s.uncertainty.getD i 0) ∧
    t.buildResidual (syntheticSpectrum t wl unc tp) tp = List.replicate wl.length 0 :=
  ⟨fun i h => buildResidual_getD t s v i h, buildResidual_synthetic_zero t wl unc tp⟩

/-- A concrete linear component used by witnesses. -/
def demoComponent : Component :=
  ⟨2, fun w ps => ps.getD 0 0 + ps.getD 1 0 * w⟩

/-- A concrete free parameter used by witnesses. -/
def demoParamInfo : ParamInfo :=
  { initial := 1, lowerBound := 0, upperBound := 10, fixed := false,
    tie := none, kind := GuessKind.amplitude, window := none }

/-- A concrete two-parameter template used by witnesses. -/
def demoTemplate : Template :=
  ⟨[demoComponent], [demoParamInfo, demoParamInfo]⟩

/-- A concrete three-sample spectrum used by witnesses. -/
def demoSpectrum : Spectrum :=
  ⟨[1, 2, 3], [3, 5, 7], [1, 1, 1]⟩

/-- Witness for the C1 theorem at a concrete template, spectrum and vector. -/
theorem buildResidual_residual_spec_witness :
    (demoTemplate.buildResidual demoSpectrum [1, 2]).getD 0 0 =
      (demoSpectrum.intensity.getD 0 0 -
        demoTemplate.model (demoSpectrum.wavelength.getD 0 0) (expandParams demoTemplate [1, 2]))
        / demoSpectrum.uncertainty.getD 0 0 :=
  (buildResidual_residual_spec demoTemplate demoSpectrum [1, 2] [] [] []).1 0 (by decide)

/-- C8: `estimate` is deterministic, total, returns for each fixed parameter
its fixed value directly, clamps every non-fixed estimate into
`[lowerBound, upperBound]`, and degrades to the (clamped) template default
when a parameter's window holds no usable samples. -/
theorem estimate_guess_spec (s : Spectrum) (t : Template) :
    InitialGuessEstimator.estimate s t = InitialGuessEstimator.estimate s t ∧
    (InitialGuessEstimator.estimate s t).length = t.params.length ∧
    (∀ i, i < t.params.length →
      ((t.params.getD i default).fixed = true →
        (InitialGuessEstimator.estimate s t).getD i 0 = (t.params.getD i default).initial) ∧
      ((t.params.getD i default).fixed = false →
        (t.params.getD i default).lowerBound ≤ (t.params.getD i default).upperBound →
        (t.params.getD i default).lowerBound ≤ (InitialGuessEstimator.estimate s t).getD i 0 ∧
          (InitialGuessEstimator.estimate s t).getD i 0 ≤ (t.params.getD i default).upperBound) ∧
      ((t.params.getD i default).fixed = false →
        usableSamples s (t.params.getD i default) = [] →
        (InitialGuessEstimator.estimate s t).getD i 0 =
          clamp (t.params.getD i default).lowerBound (t.params.getD i default).upperBound
            (t.params.getD i default).initial)) := by
  refine ⟨rfl, ?_, ?_⟩
  · unfold InitialGuessEstimator.estimate
    simp
  · intro i hi
    have hget := estimate_getD s t i hi
    refine ⟨?_, ?_, ?_⟩
    · intro hfix
      rw [hget, if_pos hfix]
    · intro hfix hbnd
      rw [hget, if_neg (by rw [hfix]; simp)]
      exact clamp_mem _ _ _ hbnd
    · intro hfix husable
      rw [hget, if_neg (by rw [hfix]; simp)]
      unfold rawEstimate
      rw [husable]
      rfl

/-- Witness for the C8 theorem on the demo spectrum and template. -/
theorem estimate_guess_spec_witness :
    demoTemplate.params.getD 0 default = demoParamInfo ∧
    (demoParamInfo.fixed = false →
      demoParamInfo.lowerBound ≤ demoParamInfo.upperBound →
      demoParamInfo.lowerBound ≤ (InitialGuessEstimator.estimate demoSpectrum demoTemplate).getD 0 0 ∧
        (InitialGuessEstimator.estimate demoSpectrum demoTemplate).getD 0 0 ≤
          demoParamInfo.upperBound) := by
  constructor
  · rfl
  · have h := ((estimate_guess_spec demoSpectrum demoTemplate).2.2 0 (by decide)).2.1
    intro h1 h2
    exact h (by decide) (by decide)

/-! ## Levenberg-Marquardt solver -/

/-- Modelled from the spec: per-pixel status codes. -/
inductive StatusCode
  | Converged
  | MaxIterationsReached
  | SingularJacobian
  | BoundsViolated
  | InputMasked
deriving DecidableEq

/-- Modelled from the spec: the per-pixel outcome container: fitted
parameters (`none` models `NaN`), chi-square, status code. -/
structure PixelFitOutcome where
  params : List (Option ℚ)
  chi2 : ℚ
  status : StatusCode
deriving DecidableEq

/-- Chi-square: the sum of squared residuals. -/
def chiSq (residFn : List ℚ → List ℚ) (p : List ℚ) : ℚ :=
  ((residFn p).map (fun r => r * r)).foldl (fun a b => a + b) 0

/-- Modelled from the spec: the free parameter indices: neither fixed nor
tied; only these get Jacobian columns and solver updates. -/
def Template.freeIndices (t : Template) : List ℕ :=
  (List.range t.params.length).filter (fun i =>
    !(t.params.getD i default).fixed && decide ((t.params.getD i default).tie = none))

/-- Finite-difference step of the numerically-approximated derivatives. -/
def fdStep : ℚ := 1 / 1024

/-- Forward-difference partial derivative column of the residual vector with
respect to parameter `j`. -/
def numDerivCol (residFn : List ℚ → List ℚ) (p : List ℚ) (j : ℕ) : List ℚ :=
  List.zipWith (fun a b => (a - b) / fdStep)
    (residFn (p.set j (p.getD j 0 + fdStep))) (residFn p)

/-- Modelled from the spec: Jacobian columns over the free parameters only:
tied and fixed parameters contribute no columns. -/
def jacobianCols (residFn : List ℚ → List ℚ) (p : List ℚ) (free : List ℕ) : List (List ℚ) :=
  free.map (numDerivCol residFn p)

/-- Dot product of two rational vectors. -/
def dot (a b : List ℚ) : ℚ :=
  (List.zipWith (fun x y => x * y) a b).foldl (fun acc x => acc + x) 0

/-- Augmented damped normal-equations rows `[JᵀJ + λ·I | Jᵀr]`. -/
def normalRows (cols : List (List ℚ)) (lam : ℚ) (r : List ℚ) : List (List ℚ) :=
  (List.range cols.length).map (fun j =>
    ((List.range cols.length).map (fun k =>
      dot (cols.getD j []) (cols.getD k []) + (if j = k then lam else 0))) ++
      [dot (cols.getD j []) r])

/-- Gaussian elimination on augmented rows with an exact zero-pivot
(conditioning) check: `none` when no usable pivot exists, i.e. the
normal-equations matrix is singular. -/
def gaussSolve : ℕ → List (List ℚ) → Option (List ℚ)
  | 0, _ => some []
  | n + 1, rows =>
    match rows.findIdx? (fun row => decide (row.getD 0 0 ≠ 0)) with
    | none => none
    | some pidx =>
      let pivot := rows.getD pidx []
      let reduced := (rows.eraseIdx pidx).map (fun row =>
        (List.zipWith (fun x y => x - (row.getD 0 0 / pivot.getD 0 0) * y) row pivot).drop 1)
      match gaussSolve n reduced with
      | none => none
      | some xs =>
        some (((pivot.getLastD 0 - dot ((pivot.drop 1).dropLast) xs) / pivot.getD 0 0) :: xs)

/-- Modelled from the spec: solver state: current parameter vector and the
multiplicative damping parameter λ. -/
structure LMState where
  params : List ℚ
  lam : ℚ
deriving DecidableEq

/-- Outcome of one solver iteration. -/
inductive StepRes
  | converged (s : LMState)
  | cont (s : LMState)
  | singular (s : LMState)
deriving DecidableEq

/-- Write the clamped update `index ↦ clamp (old - δ)` for each
(index, step-component) pair in turn. -/
def stepSets (t : Template) (l : List (ℕ × ℚ)) (p : List ℚ) : List ℚ :=
  l.foldl (fun acc jd =>
    acc.set jd.1 (clamp (t.params.getD jd.1 default).lowerBound
      (t.params.getD jd.1 default).upperBound (acc.getD jd.1 0 - jd.2))) p

/-- Modelled from the spec: apply a proposed step to the free parameters,
clamping each proposed component into its bounds. -/
def applyStep (t : Template) (p : List ℚ) (free : List ℕ) (δ : List ℚ) : List ℚ :=
  stepSets t (free.zip δ) p

/-- Resolve one parameter's value through the tie reference graph: fixed
and non-tied parameters keep their current value; a tied parameter is the
tie relation applied to its target's resolved value.  The fuel bound is
harmless on validated (acyclic) templates, whose chains resolve within
`t.params.length` steps. -/
def resolveTied (t : Template) (p : List ℚ) : ℕ → ℕ → ℚ
  | 0, i => p.getD i 0
  | fuel + 1, i =>
    if (t.params.getD i default).fixed then p.getD i 0
    else
      match (t.params.getD i default).tie with
      | some tie => tie.scale * resolveTied t p fuel tie.target + tie.offset
      | none => p.getD i 0

/-- Modelled from the spec: after each step tied parameter values are
recomputed from the tie relation rather than updated independently; tie
chains (validated acyclic at construction) are resolved fully, so every
tied parameter equals its relation applied to its target's new value.
Fixed and free parameters keep their value. -/
def retie (t : Template) (p : List ℚ) : List ℚ :=
  (List.range p.length).map (fun i => resolveTied t p (t.params.length + 1) i)

/-- L1 norm of a rational vector. -/
def sumAbs (l : List ℚ) : ℚ :=
  (l.map (fun x => |x|)).foldl (fun a b => a + b) 0

/-- Modelled from the spec: the convergence test: relative decrease in
chi-square below tolerance, or relative parameter-step norm below tolerance
(either suffices). -/
def convTest (c cNew : ℚ) (p pNew : List ℚ) (tol : ℚ) : Bool :=
  decide ((c - cNew) / c < tol) ||
    decide (sumAbs (List.zipWith (fun a b => a - b) pNew p) / sumAbs p < tol)

/-- Modelled from the spec: propose a step by solving the damped normal
equations over the free parameters; `none` signals a singular matrix. -/
def lmDelta (t : Template) (residFn : List ℚ → List ℚ) (s : LMState) : Option (List ℚ) :=
  gaussSolve t.freeIndices.length
    (normalRows (jacobianCols residFn s.params t.freeIndices) s.lam (residFn s.params))

/-- The candidate parameter vector of one iteration: step applied to the
free parameters (clamped), then ties recomputed. -/
def lmPropose (t : Template) (δ : List ℚ) (p : List ℚ) : List ℚ :=
  retie t (applyStep t p t.freeIndices δ)

/-- Modelled from the spec: the accept/reject decision on a proposed step:
accept when chi-square decreases (λ / 10, then test convergence), otherwise
reject and keep the parameters (λ × 10). -/
def lmAccept (t : Template) (residFn : List ℚ → List ℚ) (tol : ℚ) (δ : List ℚ)
    (s : LMState) : StepRes :=
  if chiSq residFn (lmPropose t δ s.params) < chiSq residFn s.params then
    if convTest (chiSq residFn s.params) (chiSq residFn (lmPropose t δ s.params))
        s.params (lmPropose t δ s.params) tol
    then StepRes.converged ⟨lmPropose t δ s.params, s.lam / 10⟩
    else StepRes.cont ⟨lmPropose t δ s.params, s.lam / 10⟩
  else StepRes.cont ⟨s.params, s.lam * 10⟩

/-- Modelled from the spec: one Levenberg-Marquardt iteration: propose a
step (singular normal equations keep the current, last valid state), clamp
it into bounds, recompute ties, then accept or reject. -/
def lmStep (t : Template) (residFn : List ℚ → List ℚ) (tol : ℚ) (s : LMState) : StepRes :=
  match lmDelta t residFn s with
  | none => StepRes.singular s
  | some δ => lmAccept t residFn tol δ s

/-- Modelled from the spec: the solver loop: `Converged` on the first
iteration whose accepted step passes the convergence test,
`SingularJacobian` on a singular normal-equations matrix (keeping the last
valid state), `MaxIterationsReached` when the budget is exhausted. -/
def lmLoop (step : LMState → StepRes) : ℕ → LMState → StatusCode × LMState
  | 0, s => (StatusCode.MaxIterationsReached, s)
  | fuel + 1, s =>
    match step s with
    | StepRes.converged s2 => (StatusCode.Converged, s2)
    | StepRes.singular s2 => (StatusCode.SingularJacobian, s2)
    | StepRes.cont s2 => lmLoop step fuel s2

/-- The solver state after `k` consecutive continuing iterations, `none` if
the loop terminated earlier. -/
def lmIterate (step : LMState → StepRes) : ℕ → LMState → Option LMState
  | 0, s => some s
  | k + 1, s =>
    match step s with
    | StepRes.cont s2 => lmIterate step k s2
    | _ => none

/-- Number of free parameters whose value sits exactly on one of their
bounds. -/
def countOnBounds (t : Template) (p : List ℚ) : ℕ :=
  (t.freeIndices.filter (fun i =>
    decide (p.getD i 0 = (t.params.getD i default).lowerBound) ||
      decide (p.getD i 0 = (t.params.getD i default).upperBound))).length

/-- Modelled from the spec:
`solve(residualFn, initialParams, bounds, maxIterations, tolerance)`; the
bounds and ties live in the template.  A converged fit whose final vector
sits exactly on a bound for more than one parameter is downgraded to
`BoundsViolated`. -/
def LMSolver.solve (t : Template) (residFn : List ℚ → List ℚ) (maxIterations : ℕ)
    (tol : ℚ) (init : List ℚ) : PixelFitOutcome :=
  let res := lmLoop (lmStep t residFn tol) maxIterations ⟨init, 1 / 1000⟩
  let status :=
    if res.1 = StatusCode.Converged ∧ 1 < countOnBounds t res.2.params
    then StatusCode.BoundsViolated else res.1
  ⟨res.2.params.map some, chiSq residFn res.2.params, status⟩

/-! ## Solver loop lemmas -/

theorem lmLoop_zero (step : LMState → StepRes) (s : LMState) :
    lmLoop step 0 s = (StatusCode.MaxIterationsReached, s) := rfl

theorem lmLoop_succ (step : LMState → StepRes) (fuel : ℕ) (s : LMState) :
    lmLoop step (fuel + 1) s =
      match step s with
      | StepRes.converged s2 => (StatusCode.Converged, s2)
      | StepRes.singular s2 => (StatusCode.SingularJacobian, s2)
      | StepRes.cont s2 => lmLoop step fuel s2 := rfl

theorem lmIterate_zero (step : LMState → StepRes) (s : LMState) :
    lmIterate step 0 s = some s := rfl

theorem lmIterate_succ (step : LMState → StepRes) (k : ℕ) (s : LMState) :
    lmIterate step (k + 1) s =
      match step s with
      | StepRes.cont s2 => lmIterate step k s2
      | _ => none := rfl

theorem lmLoop_of_iterate (step : LMState → StepRes) :
    ∀ fuel s s2, lmIterate step fuel s = some s2 →
      lmLoop step fuel s = (StatusCode.MaxIterationsReached, s2) := by
  intro fuel
  induction fuel with
  | zero =>
    intro s s2 h
    rw [lmIterate_zero] at h
    cases h
    rfl
  | succ fuel ih =>
    intro s s2 h
    rw [lmIterate_succ] at h
    rw [lmLoop_succ]
    cases hs : step s with
    | cont s3 =>
      rw [hs] at h
      exact ih s3 s2 h
    | converged s3 => rw [hs] at h; simp at h
    | singular s3 => rw [hs] at h; simp at h

theorem lmLoop_maxIter_iff (step : LMState → StepRes) :
    ∀ fuel s, (lmLoop step fuel s).1 = StatusCode.MaxIterationsReached ↔
      ∃ s2, lmIterate step fuel s = some s2 := by
  intro fuel
  induction fuel with
  | zero =>
    intro s
    constructor
    · intro _; exact ⟨s, rfl⟩
    · intro _; rfl
  | succ fuel ih =>
    intro s
    rw [lmLoop_succ, lmIterate_succ]
    cases hs : step s with
    | cont s3 => simpa using ih s3
    | converged s3 => simp
    | singular s3 => simp

theorem lmLoop_converged_at (step : LMState → StepRes) :
    ∀ k fuel s sk s2, k < fuel → lmIterate step k s = some sk →
      step sk = StepRes.converged s2 →
      lmLoop step fuel s = (StatusCode.Converged, s2) := by
  intro k
  induction k with
  | zero =>
    intro fuel s sk s2 hk hit hconv
    rw [lmIterate_zero] at hit
    cases hit
    cases fuel with
    | zero => omega
    | succ fuel =>
      rw [lmLoop_succ, hconv]
  | succ k ih =>
    intro fuel s sk s2 hk hit hconv
    rw [lmIterate_succ] at hit
    cases hs : step s with
    | cont s3 =>
      rw [hs] at hit
      cases fuel with
      | zero => omega
      | succ fuel =>
        rw [lmLoop_succ, hs]
        exact ih fuel s3 sk s2 (by omega) hit hconv
    | converged s3 => rw [hs] at hit; simp at hit
    | singular s3 => rw [hs] at hit; simp at hit

theorem lmLoop_singular_at (step : LMState → StepRes) :
    ∀ fuel s, (lmLoop step fuel s).1 = StatusCode.SingularJacobian →
      ∃ k sk s2, k < fuel ∧ lmIterate step k s = some sk ∧
        step sk = StepRes.singular s2 ∧ (lmLoop step fuel s).2 = s2 := by
  intro fuel
  induction fuel with
  | zero => intro s h; simp [lmLoop_zero] at h
  | succ fuel ih =>
    intro s h
    rw [lmLoop_succ] at h ⊢
    cases hs : step s with
    | cont s3 =>
      rw [hs] at h
      have h2 : (lmLoop step fuel s3).1 = StatusCode.SingularJacobian := h
      obtain ⟨k, sk, s2, hk, hit, hsing, hout⟩ := ih s3 h2
      refine ⟨k + 1, sk, s2, by omega, ?_, hsing, hout⟩
      rw [lmIterate_succ, hs]
      exact hit
    | converged s3 => rw [hs] at h; simp at h
    | singular s3 =>
      exact ⟨0, s, s3, by omega, rfl, hs, rfl⟩

theorem lmLoop_status_cases (step : LMState → StepRes) :
    ∀ fuel s, (lmLoop step fuel s).1 = StatusCode.Converged ∨
      (lmLoop step fuel s).1 = StatusCode.MaxIterationsReached ∨
      (lmLoop step fuel s).1 = StatusCode.SingularJacobian := by
  intro fuel
  induction fuel with
  | zero => intro s; right; left; rfl
  | succ fuel ih =>
    intro s
    rw [lmLoop_succ]
    cases hs : step s with
    | cont s3 => exact ih s3
    | converged s3 => left; rfl
    | singular s3 => right; right; rfl

/-! ## Single-step characterisations -/

theorem lmAccept_not_singular (t : Template) (residFn : List ℚ → List ℚ) (tol : ℚ)
    (δ : List ℚ) (s s2 : LMState) : lmAccept t residFn tol δ s ≠ StepRes.singular s2 := by
  unfold lmAccept
  by_cases hlt : chiSq residFn (lmPropose t δ s.params) < chiSq residFn s.params
  · rw [if_pos hlt]
    by_cases hct : convTest (chiSq residFn s.params) (chiSq residFn (lmPropose t δ s.params))
        s.params (lmPropose t δ s.params) tol = true
    · rw [if_pos hct]; simp
    · rw [if_neg hct]; simp
  · rw [if_neg hlt]; simp

theorem lmAccept_converged_iff (t : Template) (residFn : List ℚ → List ℚ) (tol : ℚ)
    (δ : List ℚ) (s s2 : LMState) :
    lmAccept t residFn tol δ s = StepRes.converged s2 ↔
      chiSq residFn (lmPropose t δ s.params) < chiSq residFn s.params ∧
      convTest (chiSq residFn s.params) (chiSq residFn (lmPropose t δ s.params))
        s.params (lmPropose t δ s.params) tol = true ∧
      s2 = ⟨lmPropose t δ s.params, s.lam / 10⟩ := by
  unfold lmAccept
  by_cases hlt : chiSq residFn (lmPropose t δ s.params) < chiSq residFn s.params
  · rw [if_pos hlt]
    by_cases hct : convTest (chiSq residFn s.params) (chiSq residFn (lmPropose t δ s.params))
        s.params (lmPropose t δ s.params) tol = true
    · rw [if_pos hct]
      constructor
      · intro h
        simp at h
        exact ⟨hlt, hct, h.symm⟩
      · rintro ⟨_, _, hs2⟩
        rw [hs2]
    · rw [if_neg hct]
      constructor
      · intro h; simp at h
      · rintro ⟨_, hct2, _⟩
        exact absurd hct2 hct
  · rw [if_neg hlt]
    constructor
    · intro h; simp at h
    · rintro ⟨hlt2, _, _⟩
      exact absurd hlt2 hlt

theorem lmAccept_cont_params (t : Template) (residFn : List ℚ → List ℚ) (tol : ℚ)
    (δ : List ℚ) (s s2 : LMState) (h : lmAccept t residFn tol δ s = StepRes.cont s2) :
    s2.params = s.params ∨ s2.params = lmPropose t δ s.params := by
  unfold lmAccept at h
  by_cases hlt : chiSq residFn (lmPropose t δ s.params) < chiSq residFn s.params
  · rw [if_pos hlt] at h
    by_cases hct : convTest (chiSq residFn s.params) (chiSq residFn (lmPropose t δ s.params))
        s.params (lmPropose t δ s.params) tol = true
    · rw [if_pos hct] at h; simp at h
    · rw [if_neg hct] at h
      simp at h
      right
      rw [← h]
  · rw [if_neg hlt] at h
    simp at h
    left
    rw [← h]

theorem lmStep_singular_char (t : Template) (residFn : List ℚ → List ℚ) (tol : ℚ)
    (s s2 : LMState) (h : lmStep t residFn tol s = StepRes.singular s2) :
    s2 = s ∧ lmDelta t residFn s = none := by
  unfold lmStep at h
  cases hd : lmDelta t residFn s with
  | none =>
    rw [hd] at h
    have h2 : StepRes.singular s = StepRes.singular s2 := h
    injection h2 with he
    exact ⟨he.symm, rfl⟩
  | some δ =>
    rw [hd] at h
    have h2 : lmAccept t residFn tol δ s = StepRes.singular s2 := h
    exact absurd h2 (lmAccept_not_singular t residFn tol δ s s2)

theorem lmStep_converged_char (t : Template) (residFn : List ℚ → List ℚ) (tol : ℚ)
    (s s2 : LMState) :
    lmStep t residFn tol s = StepRes.converged s2 ↔
      ∃ δ, lmDelta t residFn s = some δ ∧
        chiSq residFn (lmPropose t δ s.params) < chiSq residFn s.params ∧
        convTest (chiSq residFn s.params) (chiSq residFn (lmPropose t δ s.params))
          s.params (lmPropose t δ s.params) tol = true ∧
        s2 = ⟨lmPropose t δ s.params, s.lam / 10⟩ := by
  unfold lmStep
  cases hd : lmDelta t residFn s with
  | none =>
    constructor
    · intro h
      have h2 : StepRes.singular s = StepRes.converged s2 := h
      simp at h2
    · rintro ⟨δ2, hδ2, _⟩
      simp at hδ2
  | some δ =>
    constructor
    · intro h
      have h2 : lmAccept t residFn tol δ s = StepRes.converged s2 := h
      obtain ⟨h3, h4, h5⟩ := (lmAccept_converged_iff t residFn tol δ s s2).mp h2
      exact ⟨δ, rfl, h3, h4, h5⟩
    · rintro ⟨δ2, hδ2, h3, h4, h5⟩
      have hδδ : δ2 = δ := by
        injection hδ2.symm
      subst hδδ
      show lmAccept t residFn tol δ2 s = StepRes.converged s2
      exact (lmAccept_converged_iff t residFn tol δ2 s s2).mpr ⟨h3, h4, h5⟩

theorem lmStep_cont_params (t : Template) (residFn : List ℚ → List ℚ) (tol : ℚ)
    (s s2 : LMState) (h : lmStep t residFn tol s = StepRes.cont s2) :
    s2.params = s.params ∨ ∃ δ, s2.params = lmPropose t δ s.params := by
  unfold lmStep at h
  cases hd : lmDelta t residFn s with
  | none =>
    rw [hd] at h
    have h2 : StepRes.singular s = StepRes.cont s2 := h
    simp at h2
  | some δ =>
    rw [hd] at h
    have h2 : lmAccept t residFn tol δ s = StepRes.cont s2 := h
    rcases lmAccept_cont_params t residFn tol δ s s2 h2 with hp | hp
    · exact Or.inl hp
    · exact Or.inr ⟨δ, hp⟩

/-! ## Parameter-vector handling lemmas -/

theorem freeIndices_mem (t : Template) (i : ℕ) :
    i ∈ t.freeIndices ↔ i < t.params.length ∧
      (t.params.getD i default).fixed = false ∧ (t.params.getD i default).tie = none := by
  unfold Template.freeIndices
  rw [List.mem_filter, List.mem_range]
  simp [Bool.and_eq_true, Bool.not_eq_true']

theorem stepSets_nil (t : Template) (p : List ℚ) : stepSets t [] p = p := rfl

theorem stepSets_cons (t : Template) (jd : ℕ × ℚ) (l : List (ℕ × ℚ)) (p : List ℚ) :
    stepSets t (jd :: l) p =
      stepSets t l (p.set jd.1 (clamp (t.params.getD jd.1 default).lowerBound
        (t.params.getD jd.1 default).upperBound (p.getD jd.1 0 - jd.2))) := rfl

theorem stepSets_length (t : Template) :
    ∀ (l : List (ℕ × ℚ)) (p : List ℚ), (stepSets t l p).length = p.length := by
  intro l
  induction l with
  | nil => intro p; rfl
  | cons jd l ih =>
    intro p
    rw [stepSets_cons, ih]
    simp

theorem stepSets_getD_not_mem (t : Template) :
    ∀ (l : List (ℕ × ℚ)) (p : List ℚ) (i : ℕ), (∀ jd ∈ l, jd.1 ≠ i) →
      (stepSets t l p).getD i 0 = p.getD i 0 := by
  intro l
  induction l with
  | nil => intro p i _; rfl
  | cons jd l ih =>
    intro p i hne
    rw [stepSets_cons, ih _ i (fun jd2 h2 => hne jd2 (List.mem_cons_of_mem jd h2))]
    have hj : jd.1 ≠ i := hne jd (List.mem_cons_self jd l)
    simp [List.getD_eq_getElem?_getD, List.getElem?_set_ne hj]

theorem stepSets_getD_cases (t : Template) :
    ∀ (l : List (ℕ × ℚ)) (p : List ℚ) (i : ℕ), i < p.length →
      (stepSets t l p).getD i 0 = p.getD i 0 ∨
      ∃ v, (stepSets t l p).getD i 0 =
        clamp (t.params.getD i default).lowerBound (t.params.getD i default).upperBound v := by
  intro l
  induction l with
  | nil => intro p i _; left; rfl
  | cons jd l ih =>
    intro p i hi
    rw [stepSets_cons]
    have hi2 : i < (p.set jd.1 (clamp (t.params.getD jd.1 default).lowerBound
        (t.params.getD jd.1 default).upperBound (p.getD jd.1 0 - jd.2))).length := by
      simpa using hi
    rcases ih _ i hi2 with hcase | hcase
    · rw [hcase]
      by_cases hji : jd.1 = i
      · subst hji
        right
        refine ⟨p.getD jd.1 0 - jd.2, ?_⟩
        simp [List.getD_eq_getElem?_getD, List.getElem?_set_self, hi]
      · left
        simp [List.getD_eq_getElem?_getD, List.getElem?_set_ne hji]
    · right
      exact hcase

theorem retie_length (t : Template) (p : List ℚ) : (retie t p).length = p.length := by
  unfold retie
  simp

theorem resolveTied_succ (t : Template) (p : List ℚ) (fuel i : ℕ) :
    resolveTied t p (fuel + 1) i =
      if (t.params.getD i default).fixed then p.getD i 0
      else
        match (t.params.getD i default).tie with
        | some tie => tie.scale * resolveTied t p fuel tie.target + tie.offset
        | none => p.getD i 0 := rfl

theorem resolveTied_fuel_eq (t : Template) (p : List ℚ) :
    ∀ fuel i, tieResolves t.params fuel i = true →
      ∀ g, fuel ≤ g → resolveTied t p g i = resolveTied t p fuel i := by
  intro fuel
  induction fuel with
  | zero => intro i h; simp [tieResolves] at h
  | succ fuel ih =>
    intro i h g hg
    obtain ⟨g2, rfl⟩ : ∃ g2, g = g2 + 1 := ⟨g - 1, by omega⟩
    have hg2 : fuel ≤ g2 := by omega
    rw [resolveTied_succ, resolveTied_succ]
    by_cases hfx : (t.params.getD i default).fixed
    · rw [if_pos hfx, if_pos hfx]
    · rw [if_neg hfx, if_neg hfx]
      cases htie : (t.params.getD i default).tie with
      | none => rfl
      | some tie =>
        show tie.scale * resolveTied t p g2 tie.target + tie.offset =
          tie.scale * resolveTied t p fuel tie.target + tie.offset
        unfold tieResolves at h
        rw [htie] at h
        rw [Bool.and_eq_true] at h
        rw [ih tie.target h.2 g2 hg2]

theorem retie_getD (t : Template) (p : List ℚ) (i : ℕ) (h : i < p.length) :
    (retie t p).getD i 0 = resolveTied t p (t.params.length + 1) i := by
  unfold retie
  exact getD_range_map _ _ _ _ h

theorem retie_getD_fixed (t : Template) (p : List ℚ) (i : ℕ) (h : i < p.length)
    (hfx : (t.params.getD i default).fixed = true) :
    (retie t p).getD i 0 = p.getD i 0 := by
  rw [retie_getD t p i h, resolveTied_succ, if_pos hfx]

theorem retie_getD_untied (t : Template) (p : List ℚ) (i : ℕ) (h : i < p.length)
    (htie : (t.params.getD i default).tie = none) :
    (retie t p).getD i 0 = p.getD i 0 := by
  rw [retie_getD t p i h, resolveTied_succ]
  by_cases hf : (t.params.getD i default).fixed
  · rw [if_pos hf]
  · rw [if_neg hf, htie]

theorem lmPropose_length (t : Template) (δ p : List ℚ) :
    (lmPropose t δ p).length = p.length := by
  unfold lmPropose applyStep
  rw [retie_length, stepSets_length]

theorem lmPropose_fixed_getD (t : Template) (δ p : List ℚ) (i : ℕ) (hi : i < p.length)
    (hfix : (t.params.getD i default).fixed = true) :
    (lmPropose t δ p).getD i 0 = p.getD i 0 := by
  unfold lmPropose applyStep
  have hq : i < (stepSets t (t.freeIndices.zip δ) p).length := by
    rw [stepSets_length]; exact hi
  rw [retie_getD_fixed _ _ _ hq hfix]
  refine stepSets_getD_not_mem t _ p i ?_
  intro jd hjd hji
  have hmem : jd.1 ∈ t.freeIndices := (List.of_mem_zip hjd).1
  rw [freeIndices_mem] at hmem
  rw [hji] at hmem
  rw [hmem.2.1] at hfix
  simp at hfix

theorem lmPropose_tied_getD (t : Template) (δ p : List ℚ) (i : ℕ) (tie : Tie)
    (hvalid : templateValid t.params = true)
    (hlen : p.length = t.params.length) (hi : i < t.params.length)
    (hfix : (t.params.getD i default).fixed = false)
    (htie : (t.params.getD i default).tie = some tie) :
    (lmPropose t δ p).getD i 0 =
      tie.scale * (lmPropose t δ p).getD tie.target 0 + tie.offset := by
  unfold lmPropose applyStep
  unfold templateValid at hvalid
  rw [Bool.and_eq_true, Bool.and_eq_true] at hvalid
  have hrange : tieTargetsInRange t.params = true := hvalid.1.1
  have hacy : tiesAcyclic t.params = true := hvalid.1.2
  have htar : tie.target < t.params.length :=
    target_lt_of_inRange t.params hrange i hi tie htie
  have hresI : tieResolves t.params (t.params.length + 1) i = true := by
    unfold tiesAcyclic at hacy
    rw [List.all_eq_true] at hacy
    exact hacy i (List.mem_range.mpr hi)
  have hresT : tieResolves t.params t.params.length tie.target = true := by
    unfold tieResolves at hresI
    rw [htie] at hresI
    rw [Bool.and_eq_true] at hresI
    exact hresI.2
  have hqlen : (stepSets t (t.freeIndices.zip δ) p).length = t.params.length := by
    rw [stepSets_length, hlen]
  have hi2 : i < (stepSets t (t.freeIndices.zip δ) p).length := by rw [hqlen]; exact hi
  have htar2 : tie.target < (stepSets t (t.freeIndices.zip δ) p).length := by
    rw [hqlen]; exact htar
  rw [retie_getD _ _ _ hi2, retie_getD _ _ _ htar2]
  rw [resolveTied_succ t (stepSets t (t.freeIndices.zip δ) p) t.params.length i]
  rw [if_neg (by rw [hfix]; simp), htie]
  rw [resolveTied_fuel_eq t (stepSets t (t.freeIndices.zip δ) p) t.params.length tie.target
    hresT (t.params.length + 1) (by omega)]

theorem lmIterate_fixed_invariant (t : Template) (residFn : List ℚ → List ℚ) (tol : ℚ) :
    ∀ k s sk, lmIterate (lmStep t residFn tol) k s = some sk →
      sk.params.length = s.params.length ∧
      (∀ i, i < s.params.length → (t.params.getD i default).fixed = true →
        sk.params.getD i 0 = s.params.getD i 0) := by
  intro k
  induction k with
  | zero =>
    intro s sk h
    rw [lmIterate_zero] at h
    cases h
    exact ⟨rfl, fun i _ _ => rfl⟩
  | succ k ih =>
    intro s sk h
    rw [lmIterate_succ] at h
    cases hs : lmStep t residFn tol s with
    | cont s3 =>
      rw [hs] at h
      obtain ⟨ihlen, ihfix⟩ := ih s3 sk h
      rcases lmStep_cont_params t residFn tol s s3 hs with hp | ⟨δ, hp⟩
      · rw [hp] at ihlen ihfix
        exact ⟨ihlen, ihfix⟩
      · have hlen3 : s3.params.length = s.params.length := by
          rw [hp, lmPropose_length]
        refine ⟨by rw [ihlen, hlen3], ?_⟩
        intro i hi hfix
        have hstep : s3.params.getD i 0 = s.params.getD i 0 := by
          rw [hp]
          exact lmPropose_fixed_getD t δ s.params i hi hfix
        rw [ihfix i (by rw [hlen3]; exact hi) hfix, hstep]
    | converged s3 => rw [hs] at h; simp at h
    | singular s3 => rw [hs] at h; simp at h

theorem lmLoop_converged_exit (step : LMState → StepRes) :
    ∀ fuel s, (lmLoop step fuel s).1 = StatusCode.Converged →
      ∃ k sk, k < fuel ∧ lmIterate step k s = some sk ∧
        step sk = StepRes.converged (lmLoop step fuel s).2 := by
  intro fuel
  induction fuel with
  | zero => intro s h; simp [lmLoop_zero] at h
  | succ fuel ih =>
    intro s h
    rw [lmLoop_succ] at h ⊢
    cases hs : step s with
    | cont s3 =>
      rw [hs] at h
      have h2 : (lmLoop step fuel s3).1 = StatusCode.Converged := h
      obtain ⟨k, sk, hk, hit, hconv⟩ := ih s3 h2
      refine ⟨k + 1, sk, by omega, ?_, hconv⟩
      rw [lmIterate_succ, hs]
      exact hit
    | converged s3 =>
      exact ⟨0, s, by omega, rfl, hs⟩
    | singular s3 => rw [hs] at h; simp at h

theorem lmLoop_fixed_invariant (t : Template) (residFn : List ℚ → List ℚ) (tol : ℚ) :
    ∀ fuel s, (lmLoop (lmStep t residFn tol) fuel s).2.params.length = s.params.length ∧
      (∀ i, i < s.params.length → (t.params.getD i default).fixed = true →
        (lmLoop (lmStep t residFn tol) fuel s).2.params.getD i 0 = s.params.getD i 0) := by
  intro fuel
  induction fuel with
  | zero => intro s; exact ⟨rfl, fun i _ _ => rfl⟩
  | succ fuel ih =>
    intro s
    rw [lmLoop_succ]
    cases hs : lmStep t residFn tol s with
    | converged s3 =>
      obtain ⟨δ, _, _, _, hs2⟩ := (lmStep_converged_char t residFn tol s s3).mp hs
      constructor
      · show s3.params.length = s.params.length
        rw [hs2]
        exact lmPropose_length t δ s.params
      · intro i hi hfx
        show s3.params.getD i 0 = s.params.getD i 0
        rw [hs2]
        exact lmPropose_fixed_getD t δ s.params i hi hfx
    | singular s3 =>
      obtain ⟨hs3, _⟩ := lmStep_singular_char t residFn tol s s3 hs
      constructor
      · show s3.params.length = s.params.length
        rw [hs3]
      · intro i hi hfx
        show s3.params.getD i 0 = s.params.getD i 0
        rw [hs3]
    | cont s3 =>
      obtain ⟨ihlen, ihfix⟩ := ih s3
      rcases lmStep_cont_params t residFn tol s s3 hs with hp | ⟨δ, hp⟩
      · constructor
        · show (lmLoop (lmStep t residFn tol) fuel s3).2.params.length = s.params.length
          rw [ihlen, hp]
        · intro i hi hfx
          show (lmLoop (lmStep t residFn tol) fuel s3).2.params.getD i 0 = s.params.getD i 0
          rw [ihfix i (by rw [hp]; exact hi) hfx, hp]
      · have hlen3 : s3.params.length = s.params.length := by
          rw [hp, lmPropose_length]
        constructor
        · show (lmLoop (lmStep t residFn tol) fuel s3).2.params.length = s.params.length
          rw [ihlen, hlen3]
        · intro i hi hfx
          show (lmLoop (lmStep t residFn tol) fuel s3).2.params.getD i 0 = s.params.getD i 0
          rw [ihfix i (by rw [hlen3]; exact hi) hfx, hp]
          exact lmPropose_fixed_getD t δ s.params i hi hfx

theorem solve_status_def (t : Template) (residFn : List ℚ → List ℚ) (maxIterations : ℕ)
    (tol : ℚ) (init : List ℚ) :
    (LMSolver.solve t residFn maxIterations tol init).status =
      (if (lmLoop (lmStep t residFn tol) maxIterations ⟨init, 1 / 1000⟩).1 =
            StatusCode.Converged ∧
          1 < countOnBounds t
            (lmLoop (lmStep t residFn tol) maxIterations ⟨init, 1 / 1000⟩).2.params
       then StatusCode.BoundsViolated
       else (lmLoop (lmStep t residFn tol) maxIterations ⟨init, 1 / 1000⟩).1) := rfl

theorem solve_params_def (t : Template) (residFn : List ℚ → List ℚ) (maxIterations : ℕ)
    (tol : ℚ) (init : List ℚ) :
    (LMSolver.solve t residFn maxIterations tol init).params =
      (lmLoop (lmStep t residFn tol) maxIterations ⟨init, 1 / 1000⟩).2.params.map some := rfl

theorem solve_maxIter_iff (t : Template) (residFn : List ℚ → List ℚ) (maxIterations : ℕ)
    (tol : ℚ) (init : List ℚ) :
    (LMSolver.solve t residFn maxIterations tol init).status =
        StatusCode.MaxIterationsReached ↔
      ∃ s2, lmIterate (lmStep t residFn tol) maxIterations ⟨init, 1 / 1000⟩ = some s2 := by
  rw [solve_status_def, ← lmLoop_maxIter_iff]
  by_cases hc : (lmLoop (lmStep t residFn tol) maxIterations ⟨init, 1 / 1000⟩).1 =
      StatusCode.Converged ∧
      1 < countOnBounds t (lmLoop (lmStep t residFn tol) maxIterations ⟨init, 1 / 1000⟩).2.params
  · rw [if_pos hc]
    constructor
    · intro h; simp at h
    · intro h; rw [hc.1] at h; simp at h
  · rw [if_neg hc]

theorem solve_BV_iff (t : Template) (residFn : List ℚ → List ℚ) (maxIterations : ℕ)
    (tol : ℚ) (init : List ℚ) :
    (LMSolver.solve t residFn maxIterations tol init).status = StatusCode.BoundsViolated ↔
      ((lmLoop (lmStep t residFn tol) maxIterations ⟨init, 1 / 1000⟩).1 =
          StatusCode.Converged ∧
        1 < countOnBounds t
          (lmLoop (lmStep t residFn tol) maxIterations ⟨init, 1 / 1000⟩).2.params) := by
  rw [solve_status_def]
  by_cases hc : (lmLoop (lmStep t residFn tol) maxIterations ⟨init, 1 / 1000⟩).1 =
      StatusCode.Converged ∧
      1 < countOnBounds t (lmLoop (lmStep t residFn tol) maxIterations ⟨init, 1 / 1000⟩).2.params
  · rw [if_pos hc]
    constructor
    · intro _; exact hc
    · intro _; rfl
  · rw [if_neg hc]
    constructor
    · intro h
      rcases lmLoop_status_cases (lmStep t residFn tol) maxIterations ⟨init, 1 / 1000⟩ with
        hcase | hcase | hcase <;> rw [hcase] at h <;> simp at h
    · intro h; exact absurd h hc

/-! ## Claim theorems: solver termination (C2), fixed/tied invariants (C7),
bounds handling (C9) -/

/-- C2: the solver loop stops with `Converged` at the first iteration whose
accepted step passes a convergence criterion (relative chi-square decrease
below tolerance or relative step norm below tolerance — `convTest`), and
reports `MaxIterationsReached` exactly when every iteration within the
budget continued without meeting a criterion (and without a singular
matrix). -/
theorem lmSolver_termination_spec (t : Template) (residFn : List ℚ → List ℚ) (tol : ℚ) :
    (∀ k fuel s sk s2, k < fuel → lmIterate (lmStep t residFn tol) k s = some sk →
      lmStep t residFn tol sk = StepRes.converged s2 →
      lmLoop (lmStep t residFn tol) fuel s = (StatusCode.Converged, s2)) ∧
    (∀ s s2, lmStep t residFn tol s = StepRes.converged s2 ↔
      ∃ δ, lmDelta t residFn s = some δ ∧
        chiSq residFn (lmPropose t δ s.params) < chiSq residFn s.params ∧
        convTest (chiSq residFn s.params) (chiSq residFn (lmPropose t δ s.params))
          s.params (lmPropose t δ s.params) tol = true ∧
        s2 = ⟨lmPropose t δ s.params, s.lam / 10⟩) ∧
    (∀ fuel s, (lmLoop (lmStep t residFn tol) fuel s).1 =
        StatusCode.MaxIterationsReached ↔
      ∃ s2, lmIterate (lmStep t residFn tol) fuel s = some s2) ∧
    (∀ maxIterations init,
      (LMSolver.solve t residFn maxIterations tol init).status =
          StatusCode.MaxIterationsReached ↔
        ∃ s2, lmIterate (lmStep t residFn tol) maxIterations ⟨init, 1 / 1000⟩ = some s2) :=
  ⟨fun k fuel s sk s2 hk hit hconv =>
      lmLoop_converged_at (lmStep t residFn tol) k fuel s sk s2 hk hit hconv,
    fun s s2 => lmStep_converged_char t residFn tol s s2,
    fun fuel s => lmLoop_maxIter_iff (lmStep t residFn tol) fuel s,
    fun maxIterations init => solve_maxIter_iff t residFn maxIterations tol init⟩

/-- Free parameter with wide bounds, used by solver witnesses. -/
def tieParam0 : ParamInfo :=
  { initial := 1, lowerBound := -100, upperBound := 100, fixed := false,
    tie := none, kind := GuessKind.amplitude, window := none }

/-- Parameter tied to parameter 0 by `v = 2 * v0 + 1`, used by witnesses. -/
def tieParam1 : ParamInfo :=
  { initial := 1, lowerBound := -100, upperBound := 100, fixed := false,
    tie := some ⟨0, 2, 1⟩, kind := GuessKind.centroid, window := none }

/-- Fixed parameter of value 5, used by solver witnesses. -/
def tieParam2 : ParamInfo :=
  { initial := 5, lowerBound := -100, upperBound := 100, fixed := true,
    tie := none, kind := GuessKind.width, window := none }

/-- Template with one free, one tied and one fixed parameter. -/
def tieTemplate : Template := ⟨[], [tieParam0, tieParam1, tieParam2]⟩

/-- Residual function depending on the free parameter only. -/
def residFnT : List ℚ → List ℚ := fun p => [p.getD 0 0]

/-- Fixed parameter of value 1, used by solver witnesses. -/
def fixedParamA : ParamInfo :=
  { initial := 1, lowerBound := -100, upperBound := 100, fixed := true,
    tie := none, kind := GuessKind.amplitude, window := none }

/-- Template whose parameters are all fixed: every iteration continues. -/
def demoFixedTemplate : Template := ⟨[], [fixedParamA, fixedParamA]⟩

/-- Residual function used with the all-fixed template. -/
def residFnF : List ℚ → List ℚ := fun p => [p.getD 0 0 - 3]

/-- Witness for the C2 theorem: on an all-fixed template no step can improve
chi-square, so the budget is exhausted and `solve` reports
`MaxIterationsReached`. -/
theorem lmSolver_termination_spec_witness :
    (LMSolver.solve demoFixedTemplate residFnF 2 (1 / 2) [1, 2]).status =
      StatusCode.MaxIterationsReached :=
  ((lmSolver_termination_spec demoFixedTemplate residFnF (1 / 2)).2.2.2 2 [1, 2]).mpr
    ⟨⟨[1, 2], 1 / 10⟩, by decide⟩

/-- C7: a fixed parameter has the same value in every solver iterate and in
the final state of every solver run; at a converged step — and in the final
state of every run that converged — every tied parameter of a validated
template (tie chains included) equals its tie relation applied to its
target's current value; tied (and fixed) parameters contribute no Jacobian
columns, and tied values are recomputed from the tie relation by `retie`
after each step (`lmPropose`). -/
theorem solver_fixed_tied_spec (t : Template) (residFn : List ℚ → List ℚ) (tol : ℚ) :
    (∀ k s sk, lmIterate (lmStep t residFn tol) k s = some sk →
      ∀ i, i < s.params.length → (t.params.getD i default).fixed = true →
        sk.params.getD i 0 = s.params.getD i 0) ∧
    (∀ fuel s i, i < s.params.length → (t.params.getD i default).fixed = true →
      (lmLoop (lmStep t residFn tol) fuel s).2.params.getD i 0 = s.params.getD i 0) ∧
    (∀ s s2, lmStep t residFn tol s = StepRes.converged s2 →
      templateValid t.params = true →
      s.params.length = t.params.length →
      ∀ i tie, i < t.params.length →
        (t.params.getD i default).fixed = false →
        (t.params.getD i default).tie = some tie →
        s2.params.getD i 0 = tie.scale * s2.params.getD tie.target 0 + tie.offset) ∧
    (∀ fuel s, (lmLoop (lmStep t residFn tol) fuel s).1 = StatusCode.Converged →
      templateValid t.params = true →
      s.params.length = t.params.length →
      ∀ i tie, i < t.params.length →
        (t.params.getD i default).fixed = false →
        (t.params.getD i default).tie = some tie →
        (lmLoop (lmStep t residFn tol) fuel s).2.params.getD i 0 =
          tie.scale * (lmLoop (lmStep t residFn tol) fuel s).2.params.getD tie.target 0 +
            tie.offset) ∧
    (∀ p, (jacobianCols residFn p t.freeIndices).length = t.freeIndices.length) ∧
    (∀ i, i ∈ t.freeIndices →
      (t.params.getD i default).fixed = false ∧ (t.params.getD i default).tie = none) := by
  refine ⟨?_, ?_, ?_, ?_, ?_, ?_⟩
  · intro k s sk h i hi hfix
    exact (lmIterate_fixed_invariant t residFn tol k s sk h).2 i hi hfix
  · intro fuel s i hi hfix
    exact (lmLoop_fixed_invariant t residFn tol fuel s).2 i hi hfix
  · intro s s2 hconv hvalid hlen i tie hi hfix htie
    obtain ⟨δ, _, _, _, hs2⟩ := (lmStep_converged_char t residFn tol s s2).mp hconv
    rw [hs2]
    exact lmPropose_tied_getD t δ s.params i tie hvalid hlen hi hfix htie
  · intro fuel s hloop hvalid hlen i tie hi hfix htie
    obtain ⟨k, sk, hk, hit, hconv⟩ := lmLoop_converged_exit (lmStep t residFn tol) fuel s hloop
    have hsklen : sk.params.length = t.params.length := by
      rw [(lmIterate_fixed_invariant t residFn tol k s sk hit).1, hlen]
    obtain ⟨δ, _, _, _, hs2⟩ :=
      (lmStep_converged_char t residFn tol sk (lmLoop (lmStep t residFn tol) fuel s).2).mp hconv
    rw [hs2]
    exact lmPropose_tied_getD t δ sk.params i tie hvalid hsklen hi hfix htie
  · intro p
    unfold jacobianCols
    simp
  · intro i hi
    exact ((freeIndices_mem t i).mp hi).2

/-- Parameter tied to parameter 0 by the identity relation, first link of a
tie chain, used by the C7 witness. -/
def chainParam1 : ParamInfo :=
  { initial := 1, lowerBound := -100, upperBound := 100, fixed := false,
    tie := some ⟨0, 1, 0⟩, kind := GuessKind.centroid, window := none }

/-- Parameter tied to the tied parameter 1 (a tie chain p2 → p1 → p0),
used by the C7 witness. -/
def chainParam2 : ParamInfo :=
  { initial := 5, lowerBound := -100, upperBound := 100, fixed := false,
    tie := some ⟨1, 1, 0⟩, kind := GuessKind.width, window := none }

/-- A validated template whose ties form the chain p2 → p1 → p0. -/
def chainTemplate : Template := ⟨[], [tieParam0, chainParam1, chainParam2]⟩

/-- Witness for the C7 theorem, on both a direct tie and a tie chain: the
converged step on the tied template yields `v1 = 2 * v0 + 1`, and on the
chain template (which `templateValid` accepts) the chained parameter
equals its tie relation applied to its tied target. -/
theorem solver_fixed_tied_spec_witness :
    (([4 / 1001, 1009 / 1001, 5] : List ℚ).getD 1 0 =
      2 * ([4 / 1001, 1009 / 1001, 5] : List ℚ).getD 0 0 + 1) ∧
    (([4 / 1001, 4 / 1001, 4 / 1001] : List ℚ).getD 2 0 =
      1 * ([4 / 1001, 4 / 1001, 4 / 1001] : List ℚ).getD 1 0 + 0) :=
  ⟨(solver_fixed_tied_spec tieTemplate residFnT (9 / 10)).2.2.1
      ⟨[4, 9, 5], 1 / 1000⟩ ⟨[4 / 1001, 1009 / 1001, 5], 1 / 10000⟩
      (by decide) (by decide) (by decide) 1 ⟨0, 2, 1⟩ (by decide) (by decide) (by decide),
    (solver_fixed_tied_spec chainTemplate residFnT 1).2.2.1
      ⟨[4, 4, 4], 1 / 1000⟩ ⟨[4 / 1001, 4 / 1001, 4 / 1001], 1 / 10000⟩
      (by decide) (by decide) (by decide) 2 ⟨1, 1, 0⟩ (by decide) (by decide) (by decide)⟩

/-- C9: every component the solver writes during a step is either untouched
or clamped into its bounds; `solve` reports `BoundsViolated` exactly when
the loop converged and the final vector sits exactly on a bound for more
than one (free) parameter; saturating at most one bound keeps the loop's
own status (in particular `Converged` stays `Converged`). -/
theorem bounds_clamping_spec (t : Template) (residFn : List ℚ → List ℚ) (tol : ℚ) :
    (∀ (p : List ℚ) (free : List ℕ) (δ : List ℚ) (i : ℕ), i < p.length →
      (t.params.getD i default).lowerBound ≤ (t.params.getD i default).upperBound →
      (applyStep t p free δ).getD i 0 = p.getD i 0 ∨
        ((t.params.getD i default).lowerBound ≤ (applyStep t p free δ).getD i 0 ∧
          (applyStep t p free δ).getD i 0 ≤ (t.params.getD i default).upperBound)) ∧
    (∀ maxIterations init,
      (LMSolver.solve t residFn maxIterations tol init).status =
          StatusCode.BoundsViolated ↔
        ((lmLoop (lmStep t residFn tol) maxIterations ⟨init, 1 / 1000⟩).1 =
            StatusCode.Converged ∧
          1 < countOnBounds t
            (lmLoop (lmStep t residFn tol) maxIterations ⟨init, 1 / 1000⟩).2.params)) ∧
    (∀ maxIterations init,
      countOnBounds t
          (lmLoop (lmStep t residFn tol) maxIterations ⟨init, 1 / 1000⟩).2.params ≤ 1 →
      (LMSolver.solve t residFn maxIterations tol init).status =
        (lmLoop (lmStep t residFn tol) maxIterations ⟨init, 1 / 1000⟩).1) := by
  refine ⟨?_, ?_, ?_⟩
  · intro p free δ i hi hbnd
    unfold applyStep
    rcases stepSets_getD_cases t (free.zip δ) p i hi with hcase | ⟨v, hv⟩
    · left; exact hcase
    · right; rw [hv]; exact clamp_mem _ _ v hbnd
  · intro maxIterations init
    exact solve_BV_iff t residFn maxIterations tol init
  · intro maxIterations init hle
    rw [solve_status_def, if_neg]
    rintro ⟨_, hgt⟩
    omega

/-- Witness for the C9 theorem: the tied-template fit converges with no
parameter on a bound, so the status is the loop's own (`Converged`). -/
theorem bounds_clamping_spec_witness :
    countOnBounds tieTemplate
        (lmLoop (lmStep tieTemplate residFnT (9 / 10)) 5 ⟨[4, 9, 5], 1 / 1000⟩).2.params ≤ 1 ∧
    (LMSolver.solve tieTemplate residFnT 5 (9 / 10) [4, 9, 5]).status =
      (lmLoop (lmStep tieTemplate residFnT (9 / 10)) 5 ⟨[4, 9, 5], 1 / 1000⟩).1 :=
  ⟨by decide, (bounds_clamping_spec tieTemplate residFnT (9 / 10)).2.2 5 [4, 9, 5] (by decide)⟩

/-! ## Fit orchestration -/

/-- Modelled from the spec: the input cube: dimensions and the spectrum at
each (x, y) pixel, exposed read-only through `spectrumAt`. -/
structure Cube where
  nx : ℕ
  ny : ℕ
  spectrumAt : ℕ × ℕ → Spectrum

/-- Modelled from the spec: the cube-shaped output container, addressable by
the same (x, y) coordinates as the input cube. -/
structure FitResult where
  nx : ℕ
  ny : ℕ
  outcomeAt : ℕ × ℕ → PixelFitOutcome

/-- Modelled from the spec: the outcome written for a masked pixel: status
`InputMasked` with all-`NaN` (`none`) parameters, produced without invoking
any solver. -/
def maskedOutcome (nparams : ℕ) : PixelFitOutcome :=
  ⟨List.replicate nparams none, 0, StatusCode.InputMasked⟩

/-- All pixel coordinates of an `nx × ny` cube in row-major order. -/
def allPixels (nx ny : ℕ) : List (ℕ × ℕ) :=
  (List.range nx).flatMap (fun x => (List.range ny).map (fun y => (x, y)))

/-- Modelled from the spec: what the orchestrator computes for one pixel:
a pixel excluded by the mask gets the masked outcome, without invoking the
per-pixel solver; any other pixel runs the solver on its own spectrum. -/
def pixelCompute (t : Template) (solver : Spectrum → PixelFitOutcome) (cube : Cube)
    (mask : ℕ × ℕ → Bool) (q : ℕ × ℕ) : PixelFitOutcome :=
  if mask q then maskedOutcome t.params.length else solver (cube.spectrumAt q)

/-- Modelled from the spec: each pixel outcome is written into that pixel's
exclusive slot of the result, processing pixels in the given order. -/
def runPixels (compute : ℕ × ℕ → PixelFitOutcome) (init : ℕ × ℕ → PixelFitOutcome)
    (order : List (ℕ × ℕ)) : ℕ × ℕ → PixelFitOutcome :=
  order.foldl (fun g p => fun q => if q = p then compute p else g q) init

/-- Modelled from the spec: cube fitting with an explicit pixel processing
order (a single worker traverses `order` sequentially). -/
def fitCubeOrdered (t : Template) (solver : Spectrum → PixelFitOutcome) (cube : Cube)
    (mask : ℕ × ℕ → Bool) (order : List (ℕ × ℕ)) : FitResult :=
  ⟨cube.nx, cube.ny,
    runPixels (pixelCompute t solver cube mask) (fun _ => maskedOutcome t.params.length) order⟩

/-- Modelled from the spec: parallel execution with a worker pool: each
worker owns one chunk of pixels and writes to disjoint slots; the combined
effect is that of processing the concatenation of the chunks. -/
def fitCubeWorkers (t : Template) (solver : Spectrum → PixelFitOutcome) (cube : Cube)
    (mask : ℕ × ℕ → Bool) (chunks : List (List (ℕ × ℕ))) : FitResult :=
  fitCubeOrdered t solver cube mask chunks.flatten

/-- Modelled from the spec: the per-pixel pipeline: InitialGuessEstimator
then LMSolver on the pixel's own spectrum. -/
def fitPixel (t : Template) (maxIterations : ℕ) (tol : ℚ) (s : Spectrum) : PixelFitOutcome :=
  LMSolver.solve t (t.buildResidual s) maxIterations tol (InitialGuessEstimator.estimate s t)

/-- Modelled from the spec: `fitCube(cube, template, mask) -> FitResult`,
running the per-pixel pipeline over every pixel in row-major order. -/
def FitOrchestrator.fitCube (t : Template) (maxIterations : ℕ) (tol : ℚ) (cube : Cube)
    (mask : ℕ × ℕ → Bool) : FitResult :=
  fitCubeOrdered t (fitPixel t maxIterations tol) cube mask (allPixels cube.nx cube.ny)

theorem runPixels_eval (compute : ℕ × ℕ → PixelFitOutcome) :
    ∀ (order : List (ℕ × ℕ)) (init : ℕ × ℕ → PixelFitOutcome) (q : ℕ × ℕ),
      runPixels compute init order q = if q ∈ order then compute q else init q := by
  intro order
  induction order with
  | nil => intro init q; simp [runPixels]
  | cons p rest ih =>
    intro init q
    have hstep : runPixels compute init (p :: rest) q =
        runPixels compute (fun q2 => if q2 = p then compute p else init q2) rest q := rfl
    rw [hstep, ih]
    by_cases hq : q ∈ rest
    · simp [hq, List.mem_cons_of_mem p hq]
    · by_cases hqp : q = p
      · subst hqp
        simp [hq]
      · simp [hq, hqp]

theorem fitCubeOrdered_outcomeAt (t : Template) (solver : Spectrum → PixelFitOutcome)
    (cube : Cube) (mask : ℕ × ℕ → Bool) (order : List (ℕ × ℕ)) (q : ℕ × ℕ) :
    (fitCubeOrdered t solver cube mask order).outcomeAt q =
      if q ∈ order then pixelCompute t solver cube mask q
      else maskedOutcome t.params.length :=
  runPixels_eval _ order _ q

theorem fitCubeOrdered_congr_order (t : Template) (solver : Spectrum → PixelFitOutcome)
    (cube : Cube) (mask : ℕ × ℕ → Bool) (order₁ order₂ : List (ℕ × ℕ))
    (h : ∀ q : ℕ × ℕ, q ∈ order₁ ↔ q ∈ order₂) :
    fitCubeOrdered t solver cube mask order₁ = fitCubeOrdered t solver cube mask order₂ := by
  unfold fitCubeOrdered
  have hf : runPixels (pixelCompute t solver cube mask)
      (fun _ => maskedOutcome t.params.length) order₁ =
      runPixels (pixelCompute t solver cube mask)
      (fun _ => maskedOutcome t.params.length) order₂ := by
    funext q
    rw [runPixels_eval, runPixels_eval]
    by_cases hq : q ∈ order₁
    · rw [if_pos hq, if_pos ((h q).mp hq)]
    · rw [if_neg hq, if_neg (fun h2 => hq ((h q).mpr h2))]
  rw [hf]

theorem fitCubeOrdered_congr_solver (t : Template)
    (solver₁ solver₂ : Spectrum → PixelFitOutcome) (cube : Cube) (mask : ℕ × ℕ → Bool)
    (order : List (ℕ × ℕ)) (hmask : ∀ q : ℕ × ℕ, mask q = true) :
    fitCubeOrdered t solver₁ cube mask order = fitCubeOrdered t solver₂ cube mask order := by
  unfold fitCubeOrdered
  have hf : runPixels (pixelCompute t solver₁ cube mask)
      (fun _ => maskedOutcome t.params.length) order =
      runPixels (pixelCompute t solver₂ cube mask)
      (fun _ => maskedOutcome t.params.length) order := by
    have hc : pixelCompute t solver₁ cube mask = pixelCompute t solver₂ cube mask := by
      funext q
      unfold pixelCompute
      rw [if_pos (hmask q), if_pos (hmask q)]
    rw [hc]
  rw [hf]

/-! ## Claim theorems: masking (C3), failure isolation (C4), order
invariance (C5) -/

/-- C3: a pixel excluded by the mask is written into the FitResult with
status `InputMasked` and all-`NaN` (`none`) parameters; the result does not
depend on the solver at masked pixels — over an all-masked cube any two
solvers give identical results (the solver is never invoked) and every
pixel's status is `InputMasked`. -/
theorem fitCube_masked_spec (t : Template) (cube : Cube) (mask : ℕ × ℕ → Bool) :
    (∀ (solver : Spectrum → PixelFitOutcome) (order : List (ℕ × ℕ)) (q : ℕ × ℕ),
      mask q = true →
      (fitCubeOrdered t solver cube mask order).outcomeAt q =
          maskedOutcome t.params.length ∧
      ((fitCubeOrdered t solver cube mask order).outcomeAt q).status =
          StatusCode.InputMasked ∧
      ((fitCubeOrdered t solver cube mask order).outcomeAt q).params =
          List.replicate t.params.length none) ∧
    (∀ (solver₁ solver₂ : Spectrum → PixelFitOutcome) (order : List (ℕ × ℕ)),
      (∀ q : ℕ × ℕ, mask q = true) →
      fitCubeOrdered t solver₁ cube mask order = fitCubeOrdered t solver₂ cube mask order) ∧
    (∀ (maxIterations : ℕ) (tol : ℚ) (q : ℕ × ℕ), (∀ r : ℕ × ℕ, mask r = true) →
      ((FitOrchestrator.fitCube t maxIterations tol cube mask).outcomeAt q).status =
        StatusCode.InputMasked) := by
  have hmaskedAt : ∀ (solver : Spectrum → PixelFitOutcome) (order : List (ℕ × ℕ))
      (q : ℕ × ℕ), mask q = true →
      (fitCubeOrdered t solver cube mask order).outcomeAt q =
        maskedOutcome t.params.length := by
    intro solver order q hm
    rw [fitCubeOrdered_outcomeAt]
    by_cases hmem : q ∈ order
    · rw [if_pos hmem]
      unfold pixelCompute
      rw [if_pos hm]
    · rw [if_neg hmem]
  refine ⟨?_, ?_, ?_⟩
  · intro solver order q hm
    refine ⟨hmaskedAt solver order q hm, ?_, ?_⟩
    · rw [hmaskedAt solver order q hm]; rfl
    · rw [hmaskedAt solver order q hm]; rfl
  · intro solver₁ solver₂ order hmask
    exact fitCubeOrdered_congr_solver t solver₁ solver₂ cube mask order hmask
  · intro maxIterations tol q hmask
    unfold FitOrchestrator.fitCube
    rw [hmaskedAt (fitPixel t maxIterations tol) (allPixels cube.nx cube.ny) q (hmask q)]
    rfl

/-- A 1 × 2 cube whose two spectra are the demo spectrum. -/
def demoCube : Cube := ⟨1, 2, fun _ => demoSpectrum⟩

/-- The all-excluding mask. -/
def maskAll : ℕ × ℕ → Bool := fun _ => true

/-- Witness for the C3 theorem: over an all-masked cube the result does not
depend on the solver — a counting stub and the real pipeline agree. -/
theorem fitCube_masked_spec_witness :
    fitCubeOrdered demoTemplate (fun _ => maskedOutcome 0) demoCube maskAll (allPixels 1 2) =
      fitCubeOrdered demoTemplate (fitPixel demoTemplate 3 (1 / 2)) demoCube maskAll
        (allPixels 1 2) :=
  (fitCube_masked_spec demoTemplate demoCube maskAll).2.1
    (fun _ => maskedOutcome 0) (fitPixel demoTemplate 3 (1 / 2)) (allPixels 1 2)
    (fun _ => rfl)

/-- C4: per-pixel numerical failures are data, never exceptions: `fitCube`
totally assigns exactly one outcome to every unmasked pixel — the pixel's
own `fitPixel` result; a pixel's outcome depends only on that pixel's
spectrum, so failures elsewhere cannot affect it; and a `SingularJacobian`
loop outcome returns the last valid parameter state (the state at which the
singular normal-equations matrix was detected). -/
theorem fitCube_failure_isolation_spec (t : Template) (maxIterations : ℕ) (tol : ℚ)
    (cube : Cube) (mask : ℕ × ℕ → Bool) :
    (∀ q : ℕ × ℕ, q ∈ allPixels cube.nx cube.ny → mask q = false →
      (FitOrchestrator.fitCube t maxIterations tol cube mask).outcomeAt q =
        fitPixel t maxIterations tol (cube.spectrumAt q)) ∧
    (∀ (cube2 : Cube) (q : ℕ × ℕ), cube2.nx = cube.nx → cube2.ny = cube.ny →
      cube2.spectrumAt q = cube.spectrumAt q →
      (FitOrchestrator.fitCube t maxIterations tol cube2 mask).outcomeAt q =
        (FitOrchestrator.fitCube t maxIterations tol cube mask).outcomeAt q) ∧
    (∀ (residFn : List ℚ → List ℚ) (fuel : ℕ) (s : LMState),
      (lmLoop (lmStep t residFn tol) fuel s).1 = StatusCode.SingularJacobian →
      ∃ k sk, k < fuel ∧ lmIterate (lmStep t residFn tol) k s = some sk ∧
        lmDelta t residFn sk = none ∧ (lmLoop (lmStep t residFn tol) fuel s).2 = sk) := by
  refine ⟨?_, ?_, ?_⟩
  · intro q hmem hm
    unfold FitOrchestrator.fitCube
    rw [fitCubeOrdered_outcomeAt, if_pos hmem]
    unfold pixelCompute
    rw [hm]
    rfl
  · intro cube2 q hx hy hs
    unfold FitOrchestrator.fitCube
    rw [fitCubeOrdered_outcomeAt, fitCubeOrdered_outcomeAt, hx, hy]
    by_cases hmem : q ∈ allPixels cube.nx cube.ny
    · rw [if_pos hmem, if_pos hmem]
      unfold pixelCompute
      rw [hs]
    · rw [if_neg hmem, if_neg hmem]
  · intro residFn fuel s h
    obtain ⟨k, sk, s2, hk, hit, hsing, hout⟩ :=
      lmLoop_singular_at (lmStep t residFn tol) fuel s h
    obtain ⟨hs2, hdelta⟩ := lmStep_singular_char t residFn tol sk s2 hsing
    exact ⟨k, sk, hk, hit, hdelta, by rw [hout, hs2]⟩

/-- The never-excluding mask. -/
def maskNone : ℕ × ℕ → Bool := fun _ => false

/-- Witness for the C4 theorem at a concrete unmasked pixel of the demo
cube. -/
theorem fitCube_failure_isolation_spec_witness :
    (FitOrchestrator.fitCube demoTemplate 3 (1 / 2) demoCube maskNone).outcomeAt (0, 0) =
      fitPixel demoTemplate 3 (1 / 2) (demoCube.spectrumAt (0, 0)) :=
  (fitCube_failure_isolation_spec demoTemplate 3 (1 / 2) demoCube maskNone).1
    (0, 0) (by decide) rfl

/-- C5: the FitResult is identical whatever the processing order: any
permutation of the pixel list gives the same result, any chunking of the
pixels over workers gives the same result as the sequential run, and in
particular 1 worker and N workers agree. -/
theorem fitCube_order_invariance_spec (t : Template) (solver : Spectrum → PixelFitOutcome)
    (cube : Cube) (mask : ℕ × ℕ → Bool) :
    (∀ order₁ order₂ : List (ℕ × ℕ), order₁.Perm order₂ →
      fitCubeOrdered t solver cube mask order₁ = fitCubeOrdered t solver cube mask order₂) ∧
    (∀ chunks : List (List (ℕ × ℕ)), chunks.flatten.Perm (allPixels cube.nx cube.ny) →
      fitCubeWorkers t solver cube mask chunks =
        fitCubeOrdered t solver cube mask (allPixels cube.nx cube.ny)) ∧
    fitCubeWorkers t solver cube mask [allPixels cube.nx cube.ny] =
      fitCubeOrdered t solver cube mask (allPixels cube.nx cube.ny) := by
  refine ⟨?_, ?_, ?_⟩
  · intro order₁ order₂ hperm
    exact fitCubeOrdered_congr_order t solver cube mask order₁ order₂
      (fun q => hperm.mem_iff)
  · intro chunks hperm
    unfold fitCubeWorkers
    exact fitCubeOrdered_congr_order t solver cube mask chunks.flatten _
      (fun q => hperm.mem_iff)
  · unfold fitCubeWorkers
    apply fitCubeOrdered_congr_order
    intro q
    simp

/-- Witness for the C5 theorem: the demo cube fitted in two opposite pixel
orders gives identical results. -/
theorem fitCube_order_invariance_spec_witness :
    fitCubeOrdered demoTemplate (fitPixel demoTemplate 3 (1 / 2)) demoCube maskNone
        [(0, 0), (0, 1)] =
      fitCubeOrdered demoTemplate (fitPixel demoTemplate 3 (1 / 2)) demoCube maskNone
        [(0, 1), (0, 0)] :=
  (fitCube_order_invariance_spec demoTemplate (fitPixel demoTemplate 3 (1 / 2)) demoCube
    maskNone).1 [(0, 0), (0, 1)] [(0, 1), (0, 0)] (by decide)

/-! ## The `eispac.core` package namespace (embedded from
`src/eispac/core/__init__.py`) -/

/-- The public exports of one submodule: its public names in definition
order, each bound to a definition (definitions abstracted as tags). -/
abbrev ModuleExports := List (String × ℕ)

/-- One Python `from M import *` statement executed against a namespace:
every public name of `M` is bound in order, overwriting any existing
binding of that name. -/
def starImport (ns : String → Option ℕ) (m : ModuleExports) : String → Option ℕ :=
  m.foldl (fun acc nv => fun q => if q = nv.1 then some nv.2 else acc q) ns

/-- The binding a single module contributes for name `q` (its last one). -/
def lastBinding (m : ModuleExports) (q : String) : Option ℕ :=
  m.foldl (fun acc nv => if nv.1 = q then some nv.2 else acc) none

/-- `optOr a b` prefers `a` (the later contribution) over `b`. -/
def optOr (a b : Option ℕ) : Option ℕ :=
  match a with
  | some v => some v
  | none => b

/-- Executing a list of wildcard imports in textual order. -/
def wildcardChain (mods : List ModuleExports) (ns : String → Option ℕ) :
    String → Option ℕ :=
  mods.foldl starImport ns

/-- The fixed textual order of the fourteen submodules star-imported by
`eispac/core/__init__.py`. -/
def coreModuleOrder : List String :=
  ["eiscube", "eisfitresult", "mpfit", "read_wininfo", "read_cube", "read_fit",
   "read_template", "save_fit", "export_fits", "scale_guess", "fitting_functions",
   "generate_astropy_model", "fit_spectra", "fit_spectra_astropy"]

/-- The `eispac.core` package namespace after executing the fourteen
wildcard imports in textual order over an initially empty namespace, given
each submodule's public exports. -/
def eispacCoreNamespace (exportsOf : String → ModuleExports) : String → Option ℕ :=
  wildcardChain (coreModuleOrder.map exportsOf) (fun _ => none)

/-- The binding for `q` contributed by a module list, later modules
winning. -/
def chainLast (mods : List ModuleExports) (q : String) : Option ℕ :=
  mods.foldl (fun acc m => optOr (lastBinding m q) acc) none

theorem optOr_none_right (a : Option ℕ) : optOr a none = a := by
  cases a <;> rfl

theorem optOr_some_left (v : ℕ) (b : Option ℕ) : optOr (some v) b = some v := rfl

theorem optOr_none_left (b : Option ℕ) : optOr none b = b := rfl

theorem optOr_assoc (a b c : Option ℕ) : optOr (optOr a b) c = optOr a (optOr b c) := by
  cases a <;> cases b <;> rfl

theorem lastBinding_foldl_init (q : String) :
    ∀ (m : ModuleExports) (a : Option ℕ),
      m.foldl (fun acc nv => if nv.1 = q then some nv.2 else acc) a =
        optOr (lastBinding m q) a := by
  intro m
  induction m with
  | nil => intro a; rfl
  | cons nv rest ih =>
    intro a
    rw [List.foldl_cons]
    rw [ih]
    show optOr (lastBinding rest q) (if nv.1 = q then some nv.2 else a) =
      optOr (lastBinding (nv :: rest) q) a
    have hcons : lastBinding (nv :: rest) q =
        optOr (lastBinding rest q) (if nv.1 = q then some nv.2 else none) := by
      unfold lastBinding
      rw [List.foldl_cons]
      exact ih (if nv.1 = q then some nv.2 else none)
    rw [hcons, optOr_assoc]
    by_cases hq : nv.1 = q
    · rw [if_pos hq, if_pos hq]
      rfl
    · rw [if_neg hq, if_neg hq]
      rfl

theorem lastBinding_cons (q : String) (nv : String × ℕ) (rest : ModuleExports) :
    lastBinding (nv :: rest) q =
      optOr (lastBinding rest q) (if nv.1 = q then some nv.2 else none) := by
  unfold lastBinding
  rw [List.foldl_cons]
  exact lastBinding_foldl_init q rest (if nv.1 = q then some nv.2 else none)

theorem chainLast_foldl_init (q : String) :
    ∀ (mods : List ModuleExports) (a : Option ℕ),
      mods.foldl (fun acc m => optOr (lastBinding m q) acc) a =
        optOr (chainLast mods q) a := by
  intro mods
  induction mods with
  | nil => intro a; rfl
  | cons m rest ih =>
    intro a
    rw [List.foldl_cons, ih]
    have hcons : chainLast (m :: rest) q =
        optOr (chainLast rest q) (optOr (lastBinding m q) none) := by
      unfold chainLast
      rw [List.foldl_cons]
      exact ih (optOr (lastBinding m q) none)
    rw [hcons, optOr_assoc, optOr_none_right]

theorem chainLast_cons (q : String) (m : ModuleExports) (rest : List ModuleExports) :
    chainLast (m :: rest) q = optOr (chainLast rest q) (lastBinding m q) := by
  unfold chainLast
  rw [List.foldl_cons]
  rw [chainLast_foldl_init q rest (optOr (lastBinding m q) none), optOr_none_right]
  rfl

theorem starImport_eval (q : String) :
    ∀ (m : ModuleExports) (ns : String → Option ℕ),
      starImport ns m q = optOr (lastBinding m q) (ns q) := by
  intro m
  induction m with
  | nil => intro ns; rfl
  | cons nv rest ih =>
    intro ns
    have hstep : starImport ns (nv :: rest) q =
        starImport (fun q2 => if q2 = nv.1 then some nv.2 else ns q2) rest q := rfl
    rw [hstep, ih, lastBinding_cons, optOr_assoc]
    show optOr (lastBinding rest q) (if q = nv.1 then some nv.2 else ns q) =
      optOr (lastBinding rest q) (optOr (if nv.1 = q then some nv.2 else none) (ns q))
    by_cases hq : nv.1 = q
    · rw [if_pos hq, if_pos hq.symm, optOr_some_left]
    · rw [if_neg hq, if_neg (fun h2 => hq h2.symm), optOr_none_left]

theorem wildcardChain_eval (q : String) :
    ∀ (mods : List ModuleExports) (ns : String → Option ℕ),
      wildcardChain mods ns q = optOr (chainLast mods q) (ns q) := by
  intro mods
  induction mods with
  | nil => intro ns; rfl
  | cons m rest ih =>
    intro ns
    have hstep : wildcardChain (m :: rest) ns q = wildcardChain rest (starImport ns m) q := rfl
    rw [hstep, ih, starImport_eval q m ns, chainLast_cons, optOr_assoc]

theorem lastBinding_isSome_of_mem (q : String) :
    ∀ m : ModuleExports, q ∈ m.map Prod.fst → ∃ w, lastBinding m q = some w := by
  intro m
  induction m with
  | nil => intro h; simp at h
  | cons nv rest ih =>
    intro h
    rw [lastBinding_cons]
    rcases List.mem_cons.mp h with hhead | htail
    · cases hlb : lastBinding rest q with
      | some w => exact ⟨w, rfl⟩
      | none =>
        rw [optOr_none_left]
        refine ⟨nv.2, ?_⟩
        rw [if_pos hhead.symm]
    · obtain ⟨w, hw⟩ := ih (by simpa using htail)
      rw [hw]
      exact ⟨w, rfl⟩

theorem lastBinding_none_of_not_mem (q : String) :
    ∀ m : ModuleExports, q ∉ m.map Prod.fst → lastBinding m q = none := by
  intro m
  induction m with
  | nil => intro _; rfl
  | cons nv rest ih =>
    intro h
    rw [lastBinding_cons]
    have hhead : ¬(nv.1 = q) := by
      intro h2
      exact h (by simp [List.mem_cons, h2.symm])
    have htail : q ∉ rest.map Prod.fst := by
      intro h2
      exact h (by simp [List.mem_cons]; right; simpa using h2)
    rw [ih htail, if_neg hhead]
    rfl

theorem chainLast_none (q : String) :
    ∀ mods : List ModuleExports, (∀ m ∈ mods, q ∉ m.map Prod.fst) →
      chainLast mods q = none := by
  intro mods
  induction mods with
  | nil => intro _; rfl
  | cons m rest ih =>
    intro h
    rw [chainLast_cons, ih (fun m2 h2 => h m2 (List.mem_cons_of_mem m h2)),
      lastBinding_none_of_not_mem q m (h m (List.mem_cons_self m rest))]
    rfl

theorem chainLast_isSome_of_mem (q : String) :
    ∀ (mods : List ModuleExports) (m : ModuleExports), m ∈ mods →
      q ∈ m.map Prod.fst → ∃ v, chainLast mods q = some v := by
  intro mods
  induction mods with
  | nil => intro m h; simp at h
  | cons m2 rest ih =>
    intro m hmem hq
    rw [chainLast_cons]
    rcases List.mem_cons.mp hmem with hhead | htail
    · cases hcl : chainLast rest q with
      | some w => exact ⟨w, rfl⟩
      | none =>
        rw [optOr_none_left]
        subst hhead
        exact lastBinding_isSome_of_mem q m hq
    · obtain ⟨v, hv⟩ := ih m htail hq
      rw [hv]
      exact ⟨v, rfl⟩

theorem chainLast_unique (q : String) :
    ∀ (mods : List ModuleExports) (m : ModuleExports), m ∈ mods →
      (∀ m2 ∈ mods, m2 = m ∨ q ∉ m2.map Prod.fst) →
      ∀ v, lastBinding m q = some v → chainLast mods q = some v := by
  intro mods
  induction mods with
  | nil => intro m h; simp at h
  | cons m2 rest ih =>
    intro m hmem hone v hv
    rw [chainLast_cons]
    by_cases htail : m ∈ rest
    · rw [ih m htail (fun m3 h3 => hone m3 (List.mem_cons_of_mem m2 h3)) v hv]
      rfl
    · have hhead : m2 = m := by
        rcases List.mem_cons.mp hmem with hh | ht
        · exact hh.symm
        · exact absurd ht htail
      have hnone : chainLast rest q = none := by
        apply chainLast_none
        intro m3 h3
        rcases hone m3 (List.mem_cons_of_mem m2 h3) with he | hn
        · exfalso
          exact htail (he ▸ h3)
        · exact hn
      rw [hnone, optOr_none_left, hhead, hv]

theorem chainLast_last_definer (q : String) :
    ∀ (pre : List ModuleExports) (m : ModuleExports) (post : List ModuleExports),
      q ∈ m.map Prod.fst → (∀ m2 ∈ post, q ∉ m2.map Prod.fst) →
      chainLast (pre ++ m :: post) q = lastBinding m q := by
  intro pre
  induction pre with
  | nil =>
    intro m post hq hpost
    rw [List.nil_append, chainLast_cons, chainLast_none q post hpost, optOr_none_left]
  | cons m2 pre ih =>
    intro m post hq hpost
    rw [List.cons_append, chainLast_cons, ih m post hq hpost]
    obtain ⟨w, hw⟩ := lastBinding_isSome_of_mem q m hq
    rw [hw]
    rfl

theorem eispacCoreNamespace_eq_chainLast (exportsOf : String → ModuleExports) (q : String) :
    eispacCoreNamespace exportsOf q = chainLast (coreModuleOrder.map exportsOf) q := by
  unfold eispacCoreNamespace
  rw [wildcardChain_eval q (coreModuleOrder.map exportsOf) (fun _ => none)]
  exact optOr_none_right _

/-- C10: importing `eispac.core` executes wildcard imports of the fourteen
submodules in the fixed textual order (`coreModuleOrder`): every public
name of every submodule lands in the package namespace; a name defined by
exactly one submodule resolves to that submodule's binding; on a collision
the binding of the last module in textual order that exports the name
wins; names no submodule exports are absent. -/
theorem eispac_core_star_imports_spec (exportsOf : String → ModuleExports) :
    (∀ q name : String, name ∈ coreModuleOrder →
      q ∈ (exportsOf name).map Prod.fst →
      ∃ v, eispacCoreNamespace exportsOf q = some v) ∧
    (∀ (q name : String) (v : ℕ), name ∈ coreModuleOrder →
      lastBinding (exportsOf name) q = some v →
      (∀ other ∈ coreModuleOrder, other ≠ name → q ∉ (exportsOf other).map Prod.fst) →
      eispacCoreNamespace exportsOf q = some v) ∧
    (∀ (q name : String) (pre post : List String),
      coreModuleOrder = pre ++ name :: post →
      q ∈ (exportsOf name).map Prod.fst →
      (∀ other ∈ post, q ∉ (exportsOf other).map Prod.fst) →
      eispacCoreNamespace exportsOf q = lastBinding (exportsOf name) q) ∧
    (∀ q : String, (∀ name ∈ coreModuleOrder, q ∉ (exportsOf name).map Prod.fst) →
      eispacCoreNamespace exportsOf q = none) := by
  refine ⟨?_, ?_, ?_, ?_⟩
  · intro q name hname hq
    obtain ⟨v, hv⟩ := chainLast_isSome_of_mem q (coreModuleOrder.map exportsOf)
      (exportsOf name) (List.mem_map_of_mem exportsOf hname) hq
    exact ⟨v, by rw [eispacCoreNamespace_eq_chainLast, hv]⟩
  · intro q name v hname hlb hunique
    rw [eispacCoreNamespace_eq_chainLast]
    apply chainLast_unique q (coreModuleOrder.map exportsOf) (exportsOf name)
      (List.mem_map_of_mem exportsOf hname) ?_ v hlb
    intro m2 hm2
    rw [List.mem_map] at hm2
    obtain ⟨other, hother, hm2eq⟩ := hm2
    by_cases heq : other = name
    · left; rw [← hm2eq, heq]
    · right
      rw [← hm2eq]
      exact hunique other hother heq
  · intro q name pre post horder hq hpost
    rw [eispacCoreNamespace_eq_chainLast, horder, List.map_append, List.map_cons]
    apply chainLast_last_definer q (pre.map exportsOf) (exportsOf name)
      (post.map exportsOf) hq
    intro m2 hm2
    rw [List.mem_map] at hm2
    obtain ⟨other, hother, hm2eq⟩ := hm2
    rw [← hm2eq]
    exact hpost other hother
  · intro q hq
    rw [eispacCoreNamespace_eq_chainLast]
    apply chainLast_none
    intro m hm
    rw [List.mem_map] at hm
    obtain ⟨other, hother, hmeq⟩ := hm
    rw [← hmeq]
    exact hq other hother

/-- Concrete submodule exports used by the C10 witness: `mpfit` is defined
by exactly one submodule; `dup` collides between `read_cube` and the
later-listed `fit_spectra`. -/
def demoExports : String → ModuleExports := fun name =>
  if name = "mpfit" then [("mpfit", 1)]
  else if name = "read_cube" then [("dup", 5), ("read_cube", 2)]
  else if name = "fit_spectra" then [("dup", 7)]
  else []

/-- Witness for the C10 theorem: the uniquely defined name resolves to its
module's binding, and the collision resolves to the later module. -/
theorem eispac_core_star_imports_spec_witness :
    eispacCoreNamespace demoExports "mpfit" = some 1 ∧
    eispacCoreNamespace demoExports "dup" = lastBinding (demoExports "fit_spectra") "dup" :=
  ⟨(eispac_core_star_imports_spec demoExports).2.1 "mpfit" "mpfit" 1 (by decide) (by decide)
      (by decide),
    (eispac_core_star_imports_spec demoExports).2.2.1 "dup" "fit_spectra"
      ["eiscube", "eisfitresult", "mpfit", "read_wininfo", "read_cube", "read_fit",
       "read_template", "save_fit", "export_fits", "scale_guess", "fitting_functions",
       "generate_astropy_model"] ["fit_spectra_astropy"] (by decide) (by decide) (by decide)⟩

end EisFit
